import Mathlib

/-
Verification of the iterative AI code-generation core (src/utils.ts and the
vector-store helpers) of the ai-dev repository.

Text is modelled as lists of characters (`Str`).  The JavaScript string
operations used by the source (`split`, `trim`, `startsWith`, `includes`,
template literals, `path.join`) are embedded as executable functions on
`Str`.  External effects (the OpenAI call, chroma retrieval, `execSync`,
the filesystem) are modelled by explicit environments / state threading.
-/

namespace AiDev

/-- Strings are modelled as lists of characters. -/
abbrev Str := List Char

/-- The filesystem: a partial map from absolute paths to file contents.
Directories are implicit (fs.mkdir recursive is a no-op in this model). -/
abbrev Fs := Str → Option Str

/-- Write (fully overwrite) a file. -/
def writeFs (fsys : Fs) (key val : Str) : Fs :=
  fun k => if k = key then some val else fsys k

/-- JS String.prototype.trim: drop whitespace from both ends. -/
def trimL (l : Str) : Str :=
  ((l.dropWhile Char.isWhitespace).reverse.dropWhile Char.isWhitespace).reverse

/-- Fuel-indexed scanner implementing JS String.prototype.split with a
non-empty separator c0 :: cs: scan left to right, cut at each (non-overlapping)
occurrence of the separator.  The fuel is an upper bound on the scanned length;
`splitOnL` instantiates it with the length of the input. -/
def splitGo (c0 : Char) (cs : Str) : Nat → Str → List Str
  | _, [] => [[]]
  | 0, l => [l]
  | fuel+1, c :: rest =>
    if c0 = c ∧ cs.isPrefixOf rest then [] :: splitGo c0 cs fuel (rest.drop cs.length)
    else
      match splitGo c0 cs fuel rest with
      | [] => [[c]]
      | x :: xs => (c :: x) :: xs

/-- JS s.split(sep) for a non-empty separator sep = c0 :: cs. -/
def splitOnL (c0 : Char) (cs : Str) (l : Str) : List Str :=
  splitGo c0 cs l.length l

/-- The "- Path: " marker that applyAiChanges splits the model response on. -/
def pathMarker : Str := "- Path: ".data

/-- The "- Content:" marker searched for (after trimming) in each block. -/
def contentMarker : Str := "- Content:".data

/-- A code-fence delimiter (three backticks). -/
def fenceStr : Str := "```".data

/-- The backtick character (the head of the fence string). -/
def backtickChar : Char := "`".data.headD ' '

/-- Strip a leading code fence, the i-flagged regex ^```[a-z]*\n? of
cleanFileContent: three backticks, a maximal run of ASCII letters, and an
optional newline. -/
def stripLeadFence (l : Str) : Str :=
  if fenceStr.isPrefixOf l then
    if ((l.drop 3).dropWhile Char.isAlpha).head? = some '\n'
    then ((l.drop 3).dropWhile Char.isAlpha).tail
    else (l.drop 3).dropWhile Char.isAlpha
  else l

/-- Strip a trailing code fence, the regex \n?```$ of cleanFileContent:
three final backticks, preferring to also take a newline right before them. -/
def stripTrailFence (l : Str) : Str :=
  if ('\n' :: fenceStr).isSuffixOf l then l.take (l.length - 4)
  else if fenceStr.isSuffixOf l then l.take (l.length - 3)
  else l

/-- cleanFileContent of src/utils.ts: remove a leading ```lang fence, remove a
trailing ``` fence, then trim outer whitespace. -/
def cleanFileContent (rawContent : Str) : Str :=
  trimL (stripTrailFence (stripLeadFence rawContent))

/-- Resolve "." and ".." segments the way Node's path normalization does.
isAbs tells whether the original path was absolute (a leading ".." is dropped
at the root of an absolute path, kept for a relative one).  acc holds already
accepted segments in reverse order. -/
def resolveDots (isAbs : Bool) : List Str → List Str → List Str
  | acc, [] => acc.reverse
  | acc, seg :: rest =>
    if seg = [] ∨ seg = ".".data then resolveDots isAbs acc rest
    else if seg = "..".data then
      match acc with
      | [] => if isAbs then resolveDots isAbs [] rest
              else resolveDots isAbs [seg] rest
      | t :: acc' => if t = "..".data then resolveDots isAbs (seg :: t :: acc') rest
                     else resolveDots isAbs acc' rest
    else resolveDots isAbs (seg :: acc) rest

/-- Node path.posix normalize: resolve . and .. segments, collapse separators. -/
def normalizePath (p : Str) : Str :=
  let isAbs := p.head? = some '/'
  let segs := splitOnL '/' [] p
  let resolved := resolveDots isAbs [] segs
  let core := List.intercalate "/".data resolved
  if resolved = [] then (if isAbs then "/".data else ".".data)
  else (if isAbs then '/' :: core else core)

/-- Node path.posix.join of two parts: concatenate the non-empty parts with a
slash and normalize the result. -/
def pathJoin (a b : Str) : Str :=
  let joined := if a = [] then b else if b = [] then a else a ++ '/' :: b
  if joined = [] then ".".data else normalizePath joined

/-- A JS object section of package.json (scripts / dependencies /
devDependencies): a partial map from key to value.  An absent section is the
everywhere-none map (spreading undefined and the check `key in (s || ..)`
treat both alike). -/
abbrev Sect := Str → Option Str

/-- The JS `key in obj` test. -/
def jsIn (k : Str) (o : Sect) : Bool := (o k).isSome

/-- The JS object spread of two objects: later keys win. -/
def jsSpread (a b : Sect) : Sect :=
  fun k => match b k with
  | some v => some v
  | none => a k

/-- Object.fromEntries(Object.entries(o).filter(([key]) => p key)). -/
def jsFilterKeys (p : Str → Bool) (o : Sect) : Sect :=
  fun k => if p k then o k else none

/-- The parsed shape of a package.json manifest: the three merged sections
plus the remaining top-level fields (untouched by the merge). -/
structure Pkg where
  scripts : Sect
  dependencies : Sect
  devDependencies : Sect
  rest : Sect

/-- The package.json merge of applyAiChanges (src/utils.ts lines 156-185):
for each of scripts / dependencies / devDependencies, spread the existing
section and then only those model-provided entries whose key is not already
present in the existing section. -/
def mergeManifest (existing aiPkg : Pkg) : Pkg :=
  { existing with
    scripts :=
      jsSpread existing.scripts
        (jsFilterKeys (fun key => !(jsIn key existing.scripts)) aiPkg.scripts),
    dependencies :=
      jsSpread existing.dependencies
        (jsFilterKeys (fun key => !(jsIn key existing.dependencies)) aiPkg.dependencies),
    devDependencies :=
      jsSpread existing.devDependencies
        (jsFilterKeys (fun key => !(jsIn key existing.devDependencies)) aiPkg.devDependencies) }

/-- The empty manifest, as produced by parsing a missing file (the source
uses the empty object literal). -/
def emptyPkg : Pkg := ⟨fun _ => none, fun _ => none, fun _ => none, fun _ => none⟩

/-- One parsed change record of applyAiChanges. -/
structure ChangedFile where
  fullPath : Str
  relativePath : Str
deriving DecidableEq

/-- Process one fragment produced by splitting the response on "- Path: "
(the body of the for-loop of applyAiChanges, src/utils.ts lines 130-195).
parse and stringify model JSON.parse / JSON.stringify for the manifest branch. -/
def processBlock (parse : Str → Pkg) (stringify : Pkg → Str) (localPath : Str)
    (st : Fs × List ChangedFile) (block : Str) : Fs × List ChangedFile :=
  let fsys := st.1
  let changedFiles := st.2
  let lines := splitOnL '\n' [] block
  let filePathLine := lines.headD []
  let contentLines := lines.tail
  let relativeFilePath := trimL filePathLine
  match contentLines.findIdx? (fun line => contentMarker.isPrefixOf (trimL line)) with
  | none => (fsys, changedFiles)
  | some contentStartIndex =>
    let content :=
      cleanFileContent (List.intercalate ['\n'] (contentLines.drop (contentStartIndex + 1)))
    let fullFilePath := pathJoin localPath relativeFilePath
    if relativeFilePath = "package.json".data then
      let existing := match fsys fullFilePath with
        | some s => parse s
        | none => ⟨fun _ => none, fun _ => none, fun _ => none, fun _ => none⟩
      let aiPkg := parse content
      let merged := mergeManifest existing aiPkg
      (writeFs fsys fullFilePath (stringify merged),
       changedFiles ++ [⟨fullFilePath, relativeFilePath⟩])
    else
      (writeFs fsys fullFilePath content,
       changedFiles ++ [⟨fullFilePath, relativeFilePath⟩])

/-- applyAiChanges (src/utils.ts lines 121-198): split the response on
"- Path: ", drop the pre-marker preamble, and process each fragment in order,
threading the filesystem and accumulating the changed files. -/
def applyAiChanges (parse : Str → Pkg) (stringify : Pkg → Str)
    (fsys : Fs) (localPath aiResponse : Str) : Fs × List ChangedFile :=
  let fileBlocks := (splitOnL '-' " Path: ".data aiResponse).drop 1
  fileBlocks.foldl (processBlock parse stringify localPath) (fsys, [])

/-- A canonical well-formed response fragment for path p and content c:
everything that follows the "- Path: " marker of one block. -/
def mkFrag (p c : Str) : Str :=
  p ++ "\n- Content:\n".data ++ c ++ ['\n']

/-- A canonical well-formed response block: the "- Path: " marker followed by
the fragment.  A canonical N-block response is the join of N such blocks. -/
def mkBlock (p c : Str) : Str := pathMarker ++ mkFrag p c

/-- The outcome of the external `npm run build` subprocess: either an exit
status of zero, or a thrown error object carrying the captured stdout / stderr
(possibly absent), its message, and its String(err) rendering. -/
inductive ExecOutcome where
  | ok : ExecOutcome
  | fail (stdout stderr : Option Str) (message : Str) (asString : Str) : ExecOutcome

/-- The result shape of buildProject. -/
structure BuildRes where
  success : Bool
  errorOutput : Option Str

/-- JS a || b where a is a possibly-undefined string: keep a when it is
truthy (defined and non-empty), otherwise fall back to b. -/
def jsOrStr (a : Option Str) (b : Str) : Str :=
  match a with
  | some s => if s = [] then b else s
  | none => b

/-- buildProject (src/utils.ts lines 212-227): run the build; on success
return success true, on failure catch and return success false with
errorOutput = err.stdout?.toString() || err.stderr?.toString() || err.message
|| String(err). -/
def buildProject (outcome : ExecOutcome) : BuildRes :=
  match outcome with
  | .ok => ⟨true, none⟩
  | .fail stdout stderr message asString =>
      ⟨false, some (jsOrStr stdout (jsOrStr stderr (jsOrStr (some message) asString)))⟩

/-- Truthiness of a possibly-undefined JS string. -/
def jsTruthyO (o : Option Str) : Bool :=
  match o with
  | some s => !s.isEmpty
  | none => false

/-- JS a || b on possibly-undefined strings, keeping the option. -/
def jsOrOpt (a b : Option Str) : Option Str :=
  if jsTruthyO a then a else b

/-- JS template interpolation of a possibly-undefined string: undefined
prints as "undefined". -/
def jsInterp (o : Option Str) : Str :=
  match o with
  | some s => s
  | none => "undefined".data

/-- JS s.includes(sub): sub occurs somewhere in s. -/
def jsIncludes (s sub : Str) : Bool :=
  sub.isPrefixOf s ||
    match s with
    | [] => false
    | _ :: rest => jsIncludes rest sub

/-- The message of the Error thrown for a failed build, as seen by the catch
block: err.message || String(err).  new Error(x).message is x for a string x
and "" for undefined, and String(err) is "Error: m" when the message m is
non-empty and "Error" otherwise; hence the caught message is errorOutput
itself when non-empty and the literal "Error" otherwise. -/
def errMsgOf (errorOutput : Option Str) : Str :=
  match errorOutput with
  | some m => if m = [] then "Error".data else m
  | none => "Error".data

/-- The distinguished marker that classifies a caught message as a test
failure rather than a build failure. -/
def testFailedMarker : Str := "Test failed".data

/-- The retry description fed into the next attempt (src/utils.ts lines
383-385), embedding the previous failure text verbatim. -/
def retryDesc (e : Str) : Str :=
  "Previous code generated errors:\n".data ++ e
    ++ "\nPlease provide corrected code changes.".data

/-- The prompt template text before the repository context. -/
def promptPre : Str :=
  "\nYou are an expert software engineer collaborating on a real codebase.\nYour job is to implement the change described below—exactly and completely.\n\n--- REPOSITORY CONTEXT ---\n".data

/-- The fallback used when the repository context string is empty (JS ||
treats the empty string as falsy). -/
def noFilesFallback : Str := "No files in repo. Might be a new project.".data

/-- The prompt template text between the context and the issue summary. -/
def promptMid : Str := "\n\n--- ISSUE ---\n".data

/-- The prompt template text after the issue description. -/
def promptSuf : Str :=
  "\n\n--- GUIDELINES ---\n• Only output file modifications.  \n• Use this exact format (no markdown/backticks!):  \n  - Path: <relative/path/to/file>  \n  - Content:  \n  <entire, updated file content here>  \n\n• If new dependencies are required (for tests, lint rules, runtime, etc.), update package.json accordingly.  \n• Do not include explanations, comments, or JSON. Only code.  \n• If no files need changing, return nothing.\n".data

/-- buildPrompt (src/utils.ts lines 229-256): the trimmed template embedding
the repository context (or a fallback when it is empty), the issue summary
and the issue description. -/
def buildPrompt (repoContext issueSummary issueDescription : Str) : Str :=
  trimL (promptPre
    ++ (if repoContext = [] then noFilesFallback else repoContext)
    ++ promptMid ++ issueSummary ++ '\n' :: (issueDescription ++ promptSuf))

/-- One entry of the iteration log. -/
structure IterationResult where
  attempt : Nat
  prompt : Str
  aiResponse : Str
  buildError : Option Str
  testFailures : Option Str
  changedFiles : List Str

/-- The external collaborators of one run of the retry loop, indexed by the
current (0-based) attempt counter: the retrieval call that produces the
repository context, the model call that answers a prompt, the build
subprocess outcome, and the JSON codec used by the manifest merge.  The calls
are modelled as total functions; a thrown external error aborts the whole
task without producing a return value and is outside these claims. -/
structure LoopEnv where
  gather : Nat → Str → Str
  respond : Nat → Str → Str
  exec : Nat → ExecOutcome
  parse : Str → Pkg
  stringify : Pkg → Str

/-- JS Set.prototype.add on an insertion-ordered set of strings. -/
def jsSetAdd (l : List Str) (x : Str) : List Str :=
  if x ∈ l then l else l ++ [x]

/-- MAX_RETRIES (src/utils.ts line 200). -/
def MAX_RETRIES : Nat := 3

/-- MAX_PROMPT_LENGTH (src/utils.ts line 201).  Declared in the source; its
uses are what claim C9 is about. -/
def MAX_PROMPT_LENGTH : Nat := 8000

/-- The try/catch of one loop iteration (src/utils.ts lines 354-392): run the
build; on success leave both error slots unset; on failure the thrown message
is caught as errMsg and classified - when it contains the "Test failed"
marker, testFailures is set to errMsg while buildError keeps the value
assigned just before the throw (the raw errorOutput, line 362); otherwise
buildError is set to errMsg.  Returns (buildError, testFailures). -/
def attemptOutcome (env : LoopEnv) (attempt : Nat) : Option Str × Option Str :=
  let buildResult := buildProject (env.exec attempt)
  let errMsg := errMsgOf buildResult.errorOutput
  if buildResult.success then (none, none)
  else if jsIncludes errMsg testFailedMarker then (buildResult.errorOutput, some errMsg)
  else (some errMsg, none)

/-- The while-loop of iterativeCodeGeneration (src/utils.ts lines 330-406).
fuel = MAX_RETRIES - attempt is the number of further failed attempts the
condition attempt < MAX_RETRIES still allows; the loop body runs while fuel
is positive.  Each iteration gathers the context, builds the prompt, asks the
model, applies the changes, accumulates the changed paths into the set, and
classifies the build outcome; the record is pushed and the loop breaks when
neither error slot is (truthily) set, else the description is rewritten to
embed the error and the attempt counter increments. -/
def iterGo (env : LoopEnv) (localPath summary : Str) :
    Nat → Nat → Str → Fs → List Str → List Str × List IterationResult
  | 0, _, _, _, allChanged => (allChanged, [])
  | fuel+1, attempt, currentDescription, fsys, allChanged =>
    let prompt := buildPrompt (env.gather attempt
      (summary ++ "\n\n".data ++ currentDescription)) summary currentDescription
    let applied := applyAiChanges env.parse env.stringify fsys localPath
      (env.respond attempt prompt)
    let allChanged' :=
      ((applied.2).map (fun f => f.relativePath)).foldl jsSetAdd allChanged
    let bt := attemptOutcome env attempt
    let iter : IterationResult :=
      { attempt := attempt + 1, prompt := prompt,
        aiResponse := env.respond attempt prompt,
        buildError := bt.1, testFailures := bt.2,
        changedFiles := (applied.2).map (fun f => f.relativePath) }
    if !(jsTruthyO bt.1) && !(jsTruthyO bt.2) then
      (allChanged', [iter])
    else
      let r := iterGo env localPath summary fuel (attempt + 1)
        (retryDesc (jsInterp (jsOrOpt bt.1 bt.2))) applied.1 allChanged'
      (r.1, iter :: r.2)

/-- The returned value of iterativeCodeGeneration. -/
structure LoopResult where
  changedFiles : List Str
  iterations : List IterationResult

/-- iterativeCodeGeneration (src/utils.ts lines 315-409).  issueKey is taken
but (as in the source) not used by the loop body. -/
def iterativeCodeGeneration (env : LoopEnv) (fsys : Fs)
    (localPath issueKey summary description : Str) : LoopResult :=
  let r := iterGo env localPath summary MAX_RETRIES 0 description fsys []
  ⟨r.1, r.2⟩

/-- A retrieved file record of the semantic search. -/
structure FileRec where
  path : Str
  content : Str

/-- The external collaborators of gatherRepoContext: the existsSync check and
the two awaited retrieval calls, which can reject (raise) with an error. -/
structure GatherEnv (Col : Type) where
  existsDir : Str → Bool
  embedRepoFiles : Str → Str → Except Str Col
  searchRelevantFiles : Col → Str → Nat → Except Str (List FileRec)

/-- The no-files sentinel returned when the src subdirectory is missing. -/
def noFilesSentinel : Str := "No files available.".data

/-- A concrete loop environment for the witnesses: the model returns an empty
response, the first build fails with captured stdout "boom", later builds
succeed. -/
def wEnv : LoopEnv where
  gather := fun _ _ => "ctx".data
  respond := fun _ _ => []
  exec := fun i =>
    if i = 0 then ExecOutcome.fail (some "boom".data) none "boom".data
      "Error: boom".data
    else ExecOutcome.ok
  parse := fun _ => emptyPkg
  stringify := fun _ => []

/-- A concrete gather environment for the counterexample: the directory
exists and indexing rejects. -/
def wGatherFail : GatherEnv Nat where
  existsDir := fun _ => true
  embedRepoFiles := fun _ _ => Except.error "boom".data
  searchRelevantFiles := fun _ _ _ => Except.ok []

/-- A concrete gather environment for the witness: the directory is missing. -/
def wGatherNoDir : GatherEnv Nat where
  existsDir := fun _ => false
  embedRepoFiles := fun _ _ => Except.ok 0
  searchRelevantFiles := fun _ _ _ => Except.ok []

/-- gatherRepoContext (src/utils.ts lines 78-104): if directory/src exists,
embed and search (both awaited external calls, without any try/catch, so
their errors propagate), and format the hits; otherwise return the sentinel. -/
def gatherRepoContext {Col : Type} (env : GatherEnv Col)
    (directory taskDescription : Str) : Except Str Str :=
  let srcDir := pathJoin directory "src".data
  if env.existsDir srcDir then
    match env.embedRepoFiles srcDir taskDescription with
    | .error e => .error e
    | .ok collection =>
      match env.searchRelevantFiles collection taskDescription 20 with
      | .error e => .error e
      | .ok relevant =>
        .ok (List.intercalate ['\n']
          (relevant.enum.map (fun ia =>
            "--- File ".data ++ (Nat.repr (ia.1 + 1)).data ++ " (".data
              ++ ia.2.path ++ ") ---\n".data ++ ia.2.content)))
  else .ok noFilesSentinel

end AiDev

namespace AiDev

lemma isPre_iff {l1 l2 : Str} : l1.isPrefixOf l2 = true ↔ l1 <+: l2 :=
  List.isPrefixOf_iff_prefix

lemma splitGo_nil (c0 : Char) (cs : Str) (fuel : Nat) :
    splitGo c0 cs fuel [] = [[]] := by
  cases fuel <;> simp [splitGo]

lemma splitGo_ne_nil (c0 : Char) (cs : Str) :
    ∀ (fuel : Nat) (l : Str), splitGo c0 cs fuel l ≠ []
  | _, [] => by simp [splitGo_nil]
  | 0, c :: rest => by simp [splitGo]
  | fuel+1, c :: rest => by
    simp only [splitGo]
    split
    · simp
    · split
      · simp
      · simp

lemma splitGo_fuel_irrel (c0 : Char) (cs : Str) :
    ∀ (f1 : Nat) {f2 : Nat} {l : Str}, l.length ≤ f1 → l.length ≤ f2 →
      splitGo c0 cs f1 l = splitGo c0 cs f2 l
  | _, _, [], _, _ => by simp [splitGo_nil]
  | 0, _, c :: rest, h1, _ => by simp at h1
  | _+1, 0, c :: rest, _, h2 => by simp at h2
  | f1+1, f2+1, c :: rest, h1, h2 => by
    simp only [List.length_cons, Nat.add_le_add_iff_right] at h1 h2
    simp only [splitGo]
    split
    · have hd1 : (rest.drop cs.length).length ≤ f1 := by
        simp only [List.length_drop]; omega
      have hd2 : (rest.drop cs.length).length ≤ f2 := by
        simp only [List.length_drop]; omega
      rw [splitGo_fuel_irrel c0 cs f1 hd1 hd2]
    · rw [splitGo_fuel_irrel c0 cs f1 h1 h2]

lemma splitOnL_nil (c0 : Char) (cs : Str) : splitOnL c0 cs [] = [[]] := by
  simp [splitOnL, splitGo_nil]

lemma splitOnL_ne_nil (c0 : Char) (cs : Str) (l : Str) : splitOnL c0 cs l ≠ [] :=
  splitGo_ne_nil c0 cs l.length l

/-- If the separator does not occur in l, the split returns l whole. -/
lemma splitGo_no_occ (c0 : Char) (cs : Str) :
    ∀ (fuel : Nat) (l : Str), l.length ≤ fuel → ¬ ((c0 :: cs) <:+: l) →
      splitGo c0 cs fuel l = [l]
  | _, [], _, _ => by simp [splitGo_nil]
  | 0, c :: rest, h1, _ => by simp at h1
  | fuel+1, c :: rest, h1, h2 => by
    simp only [List.length_cons, Nat.add_le_add_iff_right] at h1
    simp only [splitGo]
    split
    · rename_i hcond
      have hpre1 : (c0 :: cs) <+: (c :: rest) :=
        hcond.1 ▸ List.cons_prefix_cons.mpr ⟨rfl, isPre_iff.mp hcond.2⟩
      exact absurd ( List.IsPrefix.isInfix hpre1) h2
    · have hrec : splitGo c0 cs fuel rest = [rest] :=
        splitGo_no_occ c0 cs fuel rest h1
          (fun hocc => h2 (hocc.trans (List.infix_cons (List.infix_refl rest))))
      rw [hrec]

lemma splitOnL_no_occ (c0 : Char) (cs : Str) (l : Str)
    (h : ¬ ((c0 :: cs) <:+: l)) : splitOnL c0 cs l = [l] :=
  splitGo_no_occ c0 cs l.length l (Nat.le_refl _) h

/-- A prefix occurrence of sep inside frag ++ sep ++ rest with frag nonempty
would also be an occurrence inside frag ++ sep.dropLast. -/
lemma occ_early_of_pre (sep frag rest : Str) (hsep : sep ≠ [])
    (hfrag : frag ≠ []) (hpre : sep <+: (frag ++ sep ++ rest)) :
    sep <:+: (frag ++ sep.dropLast) := by
  have hgl := List.dropLast_append_getLast hsep
  have hsplit : frag ++ sep ++ rest
      = (frag ++ sep.dropLast) ++ (sep.getLast hsep :: rest) := by
    conv_lhs => rw [← hgl]
    simp
  rw [hsplit] at hpre
  have hlen : sep.length ≤ (frag ++ sep.dropLast).length := by
    have h1 : 1 ≤ frag.length := by
      cases frag with
      | nil => exact absurd rfl hfrag
      | cons a l => simp
    have h2 : 1 ≤ sep.length := by
      cases sep with
      | nil => exact absurd rfl hsep
      | cons a l => simp
    simp [List.length_dropLast]
    omega
  have htake := List.prefix_iff_eq_take.mp hpre
  rw [List.take_append_of_le_length hlen] at htake
  have hpre2 : sep <+: frag ++ sep.dropLast := by
    nth_rewrite 1 [htake]
    exact List.take_prefix _ _
  exact List.IsPrefix.isInfix hpre2

/-- Unfolding equation for splitGo on a cons cell with positive fuel. -/
lemma splitGo_cons (c0 : Char) (cs : Str) (fuel : Nat) (c : Char) (rest : Str) :
    splitGo c0 cs (fuel+1) (c :: rest) =
      if c0 = c ∧ cs.isPrefixOf rest then
        [] :: splitGo c0 cs fuel (rest.drop cs.length)
      else
        match splitGo c0 cs fuel rest with
        | [] => [[c]]
        | x :: xs => (c :: x) :: xs := rfl

/-- Splitting frag ++ sep ++ rest cuts exactly after frag, provided no
occurrence of sep starts inside frag. -/
lemma splitOnL_cut (c0 : Char) (cs : Str) :
    ∀ (frag rest : Str),
      ¬ ((c0 :: cs) <:+: (frag ++ (c0 :: cs).dropLast)) →
      splitOnL c0 cs (frag ++ (c0 :: cs) ++ rest) = frag :: splitOnL c0 cs rest
  | [], rest, _ => by
    have hshape : ([] : Str) ++ (c0 :: cs) ++ rest = c0 :: (cs ++ rest) := by simp
    rw [hshape]
    show splitGo c0 cs (c0 :: (cs ++ rest)).length (c0 :: (cs ++ rest)) = _
    have hlen : (c0 :: (cs ++ rest)).length = (cs ++ rest).length + 1 := by simp
    rw [hlen, splitGo_cons,
      if_pos ⟨rfl, isPre_iff.mpr (List.prefix_append cs rest)⟩,
      List.drop_left,
      splitGo_fuel_irrel c0 cs _ (by simp) (Nat.le_refl rest.length)]
    rfl
  | a :: frag', rest, hno => by
    have hshape : (a :: frag') ++ (c0 :: cs) ++ rest
        = a :: (frag' ++ (c0 :: cs) ++ rest) := by simp
    rw [hshape]
    show splitGo c0 cs (a :: (frag' ++ (c0 :: cs) ++ rest)).length
        (a :: (frag' ++ (c0 :: cs) ++ rest)) = _
    have hlen : (a :: (frag' ++ (c0 :: cs) ++ rest)).length
        = (frag' ++ (c0 :: cs) ++ rest).length + 1 := by simp
    rw [hlen, splitGo_cons]
    split
    · rename_i hcond
      obtain ⟨h1, h2⟩ := hcond
      subst h1
      have hpre : (c0 :: cs) <+: ((c0 :: frag') ++ (c0 :: cs) ++ rest) := by
        have : (c0 :: frag') ++ (c0 :: cs) ++ rest
            = c0 :: (frag' ++ (c0 :: cs) ++ rest) := by simp
        rw [this]
        exact List.cons_prefix_cons.mpr ⟨rfl, isPre_iff.mp h2⟩
      exact absurd (occ_early_of_pre (c0 :: cs) (c0 :: frag') rest (by simp)
        (by simp) hpre) hno
    · have hno' : ¬ ((c0 :: cs) <:+: (frag' ++ (c0 :: cs).dropLast)) := by
        intro hocc
        exact hno (hocc.trans (List.infix_cons (List.infix_refl _)))
      have hrec : splitGo c0 cs (frag' ++ (c0 :: cs) ++ rest).length
          (frag' ++ (c0 :: cs) ++ rest) = frag' :: splitOnL c0 cs rest :=
        splitOnL_cut c0 cs frag' rest hno'
      rw [hrec]

lemma intercalate_cons_of_ne_nil (sep x : Str) {ys : List Str} (h : ys ≠ []) :
    List.intercalate sep (x :: ys) = x ++ sep ++ List.intercalate sep ys := by
  cases ys with
  | nil => exact absurd rfl h
  | cons y ys' => simp [List.intercalate, List.intersperse]

lemma intercalate_single (sep x : Str) :
    List.intercalate sep [x] = x := by
  simp [List.intercalate, List.intersperse]

/-- split/join round trip: joining the chunks with the separator restores
the input. -/
lemma intercalate_splitGo (c0 : Char) (cs : Str) :
    ∀ (fuel : Nat) (l : Str), l.length ≤ fuel →
      List.intercalate (c0 :: cs) (splitGo c0 cs fuel l) = l
  | _, [], _ => by simp [splitGo_nil, intercalate_single]
  | 0, c :: rest, h => by simp at h
  | fuel+1, c :: rest, h => by
    simp only [List.length_cons, Nat.add_le_add_iff_right] at h
    simp only [splitGo]
    split
    · rename_i hcond
      obtain ⟨rest'', hr⟩ := isPre_iff.mp hcond.2
      have hdrop : rest.drop cs.length = rest'' := by
        rw [← hr, List.drop_left]
      have hlen : rest''.length ≤ fuel := by
        have : rest''.length ≤ rest.length := by
          rw [← hr]; simp
        omega
      rw [hdrop,
        intercalate_cons_of_ne_nil _ _ (splitGo_ne_nil c0 cs fuel rest''),
        intercalate_splitGo c0 cs fuel rest'' hlen]
      simp [hcond.1, ← hr]
    · rename_i hcond
      have hrec := intercalate_splitGo c0 cs fuel rest h
      cases hx : splitGo c0 cs fuel rest with
      | nil => exact absurd hx (splitGo_ne_nil c0 cs fuel rest)
      | cons x xs =>
        rw [hx] at hrec
        cases xs with
        | nil =>
          rw [intercalate_single] at hrec
          simp [intercalate_single, hrec]
        | cons y ys =>
          rw [intercalate_cons_of_ne_nil _ _ (by simp)] at hrec ⊢
          simp only [List.cons_append, List.append_assoc] at hrec ⊢
          rw [← hrec]

lemma intercalate_splitOnL (c0 : Char) (cs : Str) (l : Str) :
    List.intercalate (c0 :: cs) (splitOnL c0 cs l) = l :=
  intercalate_splitGo c0 cs l.length l (Nat.le_refl _)

/-- An occurrence inside an append either lies in one part or spans the
boundary, splitting into a nonempty suffix of the left part and a nonempty
leading part of the right part. -/
lemma infix_append_cases {A x y : Str} (h : A <:+: x ++ y) :
    A <:+: x ∨ A <:+: y ∨
      ∃ a₁ a₂, A = a₁ ++ a₂ ∧ a₁ ≠ [] ∧ a₂ ≠ [] ∧ a₁ <:+ x ∧ a₂ <+: y := by
  obtain ⟨s, t, hst⟩ := h
  rw [show s ++ A ++ t = (s ++ A) ++ t by simp] at hst
  rcases List.append_eq_append_iff.mp hst with ⟨a', hx, _⟩ | ⟨c', hsA, hy⟩
  · exact Or.inl ⟨s, a', by simp [hx]⟩
  · rcases List.append_eq_append_iff.mp hsA with ⟨a'', hx2, hA⟩ | ⟨c'', _, hc'⟩
    · rcases eq_or_ne c' [] with hc | hc
      · subst hc
        exact Or.inl ⟨s, [], by
          have hA' : A = a'' := by simpa using hA
          simp [hx2, hA']⟩
      · rcases eq_or_ne a'' [] with ha | ha
        · subst ha
          simp only [List.nil_append] at hA
          exact Or.inr (Or.inl ⟨[], t, by simp [← hA, hy]⟩)
        · exact Or.inr (Or.inr ⟨a'', c', hA, ha, hc,
            ⟨s, hx2.symm⟩, ⟨t, hy.symm⟩⟩)
    · exact Or.inr (Or.inl ⟨c'', t, by simp [hy, hc']⟩)

/-- A prefix of an append that fits within the left part is a prefix of it. -/
lemma pre_of_append_of_le {A w v : Str} (h : A <+: w ++ v)
    (hlen : A.length ≤ w.length) : A <+: w := by
  have htake := List.prefix_iff_eq_take.mp h
  rw [List.take_append_of_le_length hlen] at htake
  exact htake ▸ List.take_prefix _ _

/-- The first character of the right half of a boundary-spanning occurrence
is the first character of the right part. -/
lemma head_mem_of_span {A a₁ a₂ y : Str} (hA : A = a₁ ++ a₂) (hne : a₂ ≠ [])
    (hpre : a₂ <+: y) {h : Char} (hy : y.head? = some h) : h ∈ A := by
  obtain ⟨r, hr⟩ := hpre
  cases a₂ with
  | nil => exact absurd rfl hne
  | cons b bs =>
    rw [← hr] at hy
    simp only [List.cons_append, List.head?_cons, Option.some.injEq] at hy
    subst hy
    rw [hA]
    exact List.mem_append_right _ (List.mem_cons_self _ _)

/-- The last character of the left half of a boundary-spanning occurrence is
the last character of the left part. -/
lemma last_mem_of_span {A a₁ a₂ x : Str} (hA : A = a₁ ++ a₂) (hne : a₁ ≠ [])
    (hsuf : a₁ <:+ x) {h : Char} (hx : x.getLast? = some h) : h ∈ A := by
  obtain ⟨r, hr⟩ := hsuf
  rw [← hr, List.getLast?_append] at hx
  have hlast : a₁.getLast? = some h := by
    cases hl : a₁.getLast? with
    | none => exact absurd (List.getLast?_eq_none_iff.mp hl) hne
    | some v => rw [hl] at hx; simpa using hx
  rw [hA]
  exact List.mem_append_left _ (List.mem_of_mem_getLast? hlast)

/-- getLast? is preserved by a nonempty suffix. -/
lemma getLast?_of_suffix {a x : Str} (hsuf : a <:+ x) (hne : a ≠ []) :
    x.getLast? = a.getLast? := by
  obtain ⟨r, hr⟩ := hsuf
  rw [← hr, List.getLast?_append]
  cases hl : a.getLast? with
  | none => exact absurd (List.getLast?_eq_none_iff.mp hl) hne
  | some v => rfl

/-- Correctness of the JS includes test. -/
lemma jsIncludes_iff (sub : Str) : ∀ (s : Str),
    jsIncludes s sub = true ↔ sub <:+: s
  | [] => by
    simp only [jsIncludes, Bool.or_eq_true, isPre_iff]
    constructor
    · rintro (h | h)
      · exact List.IsPrefix.isInfix h
      · cases h
    · intro h
      have hnil : sub = [] := by
        have := h.length_le
        simpa using List.length_eq_zero.mp (Nat.le_zero.mp (by simpa using this))
      exact Or.inl (by simp [hnil])
  | c :: rest => by
    rw [jsIncludes]
    simp only [Bool.or_eq_true, List.isPrefixOf_iff_prefix, jsIncludes_iff sub rest]
    constructor
    · rintro (h | h)
      · exact List.IsPrefix.isInfix h
      · exact h.trans (List.infix_cons (List.infix_refl rest))
    · intro h
      rcases List.infix_cons_iff.mp h with h1 | h2
      · exact Or.inl h1
      · exact Or.inr h2

lemma dropWhile_append_of_ne {p : Char → Bool} {a : Str} (x : Str)
    (h : a.dropWhile p ≠ []) :
    (a ++ x).dropWhile p = a.dropWhile p ++ x := by
  rw [List.dropWhile_append, if_neg]
  simpa using h

lemma dropWhile_ne_nil_of_exists {p : Char → Bool} {a : Str}
    (h : ∃ ch ∈ a, ¬ p ch) : a.dropWhile p ≠ [] := by
  intro hnil
  obtain ⟨ch, hmem, hp⟩ := h
  exact hp (List.dropWhile_eq_nil_iff.mp hnil ch hmem)

/-- Appending a newline does not change the trimmed string. -/
lemma trimL_append_nl (x : Str) : trimL (x ++ ['\n']) = trimL x := by
  unfold trimL
  rcases eq_or_ne (x.dropWhile Char.isWhitespace) [] with h | h
  · rw [List.dropWhile_append, h]
    simp
  · rw [dropWhile_append_of_ne _ h, List.reverse_append]
    have hrev : (['\n'] : Str).reverse = ['\n'] := rfl
    rw [hrev]
    have hcons : ('\n' :: (x.dropWhile Char.isWhitespace).reverse).dropWhile
        Char.isWhitespace = (x.dropWhile Char.isWhitespace).reverse.dropWhile
        Char.isWhitespace := by
      rw [List.dropWhile_cons_of_pos]
      rfl
    rw [show ['\n'] ++ (x.dropWhile Char.isWhitespace).reverse
        = '\n' :: (x.dropWhile Char.isWhitespace).reverse from rfl, hcons]

/-- The middle of an append survives trimming when both sides contain a
non-whitespace character. -/
lemma infix_trimL {a b : Str} (m : Str)
    (ha : ∃ ch ∈ a, ¬ ch.isWhitespace) (hb : ∃ ch ∈ b, ¬ ch.isWhitespace) :
    m <:+: trimL (a ++ m ++ b) := by
  have ha' : a.dropWhile Char.isWhitespace ≠ [] := dropWhile_ne_nil_of_exists ha
  have hb' : b.reverse.dropWhile Char.isWhitespace ≠ [] := by
    refine dropWhile_ne_nil_of_exists ?_
    obtain ⟨ch, hm, hch⟩ := hb
    exact ⟨ch, List.mem_reverse.mpr hm, hch⟩
  unfold trimL
  rw [show a ++ m ++ b = a ++ (m ++ b) by simp,
    dropWhile_append_of_ne _ ha']
  rw [show a.dropWhile Char.isWhitespace ++ (m ++ b)
      = (a.dropWhile Char.isWhitespace ++ m) ++ b by simp,
    List.reverse_append,
    dropWhile_append_of_ne _ hb']
  rw [List.reverse_append, List.reverse_reverse]
  exact ⟨a.dropWhile Char.isWhitespace,
    (b.reverse.dropWhile Char.isWhitespace).reverse, by simp⟩

/-- stripTrailFence is the identity on strings not ending in a backtick. -/
lemma stripTrailFence_id {l : Str} (h : l.getLast? ≠ some backtickChar) :
    stripTrailFence l = l := by
  have h1 : ¬ (('\n' :: fenceStr).isSuffixOf l = true) := by
    rw [List.isSuffixOf_iff_suffix]
    intro hsuf
    exact h (by rw [getLast?_of_suffix hsuf (by simp)]; rfl)
  have h2 : ¬ (fenceStr.isSuffixOf l = true) := by
    rw [List.isSuffixOf_iff_suffix]
    intro hsuf
    exact h (by rw [getLast?_of_suffix hsuf (by simp [fenceStr])]; rfl)
  unfold stripTrailFence
  rw [if_neg h1, if_neg h2]

/-- The fence test at the front ignores an appended newline. -/
lemma fence_pre_append_nl {c : Str} :
    (fenceStr <+: (c ++ ['\n'])) ↔ (fenceStr <+: c) := by
  constructor
  · intro hp
    rcases Nat.lt_or_ge c.length 3 with hlen | hlen
    · exfalso
      have hle := hp.length_le
      simp only [fenceStr, List.length_append, List.length_cons] at hle hlen ⊢
      have hlen3 : (c ++ ['\n']).length = fenceStr.length := by
        simp [fenceStr]
        omega
      have heq := hp.eq_of_length hlen3.symm
      have := congrArg List.getLast? heq
      rw [List.getLast?_concat] at this
      simp [fenceStr] at this
    · exact pre_of_append_of_le hp (by simpa [fenceStr] using hlen)
  · intro hp
    exact hp.trans (List.prefix_append c ['\n'])

/-- stripLeadFence returns a suffix of its input. -/
lemma stripLeadFence_suffix (l : Str) : stripLeadFence l <:+ l := by
  unfold stripLeadFence
  split
  · have hsuf : (l.drop 3).dropWhile Char.isAlpha <:+ l :=
      (List.dropWhile_suffix _).trans (List.drop_suffix 3 l)
    split
    · exact (List.tail_suffix _).trans hsuf
    · exact hsuf
  · exact List.suffix_refl l

/-- cleanFileContent ignores a trailing newline when the content does not end
in a backtick (the shape the canonical response format produces). -/
lemma clean_append_nl {c : Str} (h : c.getLast? ≠ some backtickChar) :
    cleanFileContent (c ++ ['\n']) = cleanFileContent c := by
  have hnlLast : (c ++ ['\n']).getLast? ≠ some backtickChar := by
    rw [List.getLast?_concat]
    decide
  unfold cleanFileContent
  by_cases hpre : fenceStr <+: c
  · obtain ⟨c0, rfl⟩ := hpre
    have hpre1 : fenceStr.isPrefixOf (fenceStr ++ c0) = true :=
      isPre_iff.mpr (List.prefix_append _ _)
    have hpre2 : fenceStr.isPrefixOf ((fenceStr ++ c0) ++ ['\n']) = true :=
      isPre_iff.mpr
        (fence_pre_append_nl.mpr (List.prefix_append _ _))
    have hdropc : (fenceStr ++ c0).drop 3 = c0 := by
      rw [show (3 : Nat) = fenceStr.length from rfl, List.drop_left]
    have hdropnl : ((fenceStr ++ c0) ++ ['\n']).drop 3 = c0 ++ ['\n'] := by
      rw [show (fenceStr ++ c0) ++ ['\n'] = fenceStr ++ (c0 ++ ['\n']) by simp,
        show (3 : Nat) = fenceStr.length from rfl, List.drop_left]
    rcases hr : c0.dropWhile Char.isAlpha with _ | ⟨hch, t⟩
    · -- c0 is a run of letters: both sides strip to the empty string
      have h1 : (c0 ++ ['\n']).dropWhile Char.isAlpha = ['\n'] := by
        rw [List.dropWhile_append, hr]
        rfl
      have e1 : stripLeadFence ((fenceStr ++ c0) ++ ['\n']) = [] := by
        unfold stripLeadFence
        rw [if_pos hpre2]
        simp only [hdropnl, h1]
        rfl
      have e2 : stripLeadFence (fenceStr ++ c0) = [] := by
        unfold stripLeadFence
        rw [if_pos hpre1]
        simp only [hdropc, hr]
        rfl
      rw [e1, e2]
    · have hrne : c0.dropWhile Char.isAlpha ≠ [] := by simp [hr]
      have h1 : (c0 ++ ['\n']).dropWhile Char.isAlpha
          = c0.dropWhile Char.isAlpha ++ ['\n'] := dropWhile_append_of_ne _ hrne
      have hsufr : c0.dropWhile Char.isAlpha <:+ fenceStr ++ c0 :=
        (List.dropWhile_suffix _).trans (List.suffix_append _ _)
      by_cases hh : hch = '\n'
      · subst hh
        have e1 : stripLeadFence ((fenceStr ++ c0) ++ ['\n']) = t ++ ['\n'] := by
          unfold stripLeadFence
          rw [if_pos hpre2]
          simp only [hdropnl, h1, hr]
          rfl
        have e2 : stripLeadFence (fenceStr ++ c0) = t := by
          unfold stripLeadFence
          rw [if_pos hpre1]
          simp only [hdropc, hr]
          rfl
        have htLast : t.getLast? ≠ some backtickChar := by
          rcases eq_or_ne t [] with ht | ht
          · subst ht; simp
          · have htsuf : t <:+ fenceStr ++ c0 := by
              have : t <:+ c0.dropWhile Char.isAlpha := by
                rw [hr]; exact List.suffix_cons '\n' t
              exact this.trans hsufr
            rw [← getLast?_of_suffix htsuf ht]
            exact h
        rw [e1, e2, stripTrailFence_id (by rw [List.getLast?_concat]; decide),
          stripTrailFence_id htLast, trimL_append_nl]
      · have e1 : stripLeadFence ((fenceStr ++ c0) ++ ['\n'])
            = (hch :: t) ++ ['\n'] := by
          unfold stripLeadFence
          rw [if_pos hpre2]
          simp only [hdropnl, h1, hr]
          rw [if_neg (by simp [hh])]
        have e2 : stripLeadFence (fenceStr ++ c0) = hch :: t := by
          unfold stripLeadFence
          rw [if_pos hpre1]
          simp only [hdropc, hr]
          rw [if_neg (by simp [hh])]
        have hrLast : (hch :: t).getLast? ≠ some backtickChar := by
          have hgl : (fenceStr ++ c0).getLast? = (hch :: t).getLast? :=
            getLast?_of_suffix (hr ▸ hsufr) (by simp)
          rw [← hgl]
          exact h
        rw [e1, e2, stripTrailFence_id (by rw [List.getLast?_concat]; decide),
          stripTrailFence_id hrLast, trimL_append_nl]
  · have e1 : stripLeadFence (c ++ ['\n']) = c ++ ['\n'] := by
      unfold stripLeadFence
      rw [if_neg]
      rw [List.isPrefixOf_iff_prefix]
      exact fun hp => hpre (fence_pre_append_nl.mp hp)
    have e2 : stripLeadFence c = c := by
      unfold stripLeadFence
      rw [if_neg]
      rw [List.isPrefixOf_iff_prefix]
      exact hpre
    rw [e1, e2, stripTrailFence_id hnlLast, stripTrailFence_id h, trimL_append_nl]

lemma infix_of_left {A x : Str} (y : Str) (h : A <:+: x) : A <:+: x ++ y := by
  obtain ⟨s, t, hst⟩ := h
  exact ⟨s, t ++ y, by rw [← hst]; simp⟩

lemma singleton_infix_iff {x : Char} {l : Str} : [x] <:+: l ↔ x ∈ l := by
  constructor
  · rintro ⟨s, t, rfl⟩
    simp
  · intro hm
    obtain ⟨s, t, rfl⟩ := List.append_of_mem hm
    exact ⟨s, t, by simp⟩

/-- No occurrence of the "- Path: " marker starts inside a canonical fragment
whose path and content are themselves marker-free: the inner newlines block
any occurrence spanning a boundary. -/
lemma no_marker_in_frag {p c : Str} (hp : ¬ pathMarker <:+: p)
    (hc : ¬ pathMarker <:+: c) :
    ¬ pathMarker <:+: (mkFrag p c ++ pathMarker.dropLast) := by
  intro h
  have hshape : mkFrag p c ++ pathMarker.dropLast
      = p ++ ("\n- Content:\n".data ++ (c ++ ('\n' :: pathMarker.dropLast))) := by
    simp [mkFrag]
  rw [hshape] at h
  have hnlSep : ('\n' : Char) ∉ pathMarker := by decide
  rcases infix_append_cases h with h1 | h2 | ⟨a₁, a₂, hA, hn1, hn2, hsuf, hpre2⟩
  · exact hp h1
  · rcases infix_append_cases h2 with h3 | h4 | ⟨a₁, a₂, hA, hn1, hn2, hsuf, hpre2⟩
    · exact absurd h3 (by decide)
    · rcases infix_append_cases h4 with h5 | h6 | ⟨a₁, a₂, hA, hn1, hn2, hsuf, hpre2⟩
      · exact hc h5
      · exact absurd h6 (by decide)
      · exact hnlSep (head_mem_of_span hA hn2 hpre2 rfl)
    · exact hnlSep (last_mem_of_span hA hn1 hsuf (by decide))
  · exact hnlSep (head_mem_of_span hA hn2 hpre2 rfl)

/-- Splitting a fragment followed by further canonical blocks cuts exactly at
the block boundaries. -/
lemma splitOnL_frag_blocks :
    ∀ (rest : List (Str × Str)) (p c : Str),
      ¬ pathMarker <:+: (mkFrag p c ++ pathMarker.dropLast) →
      (∀ b ∈ rest, ¬ pathMarker <:+: (mkFrag b.1 b.2 ++ pathMarker.dropLast)) →
      splitOnL '-' " Path: ".data
          (mkFrag p c ++ (rest.map (fun b => mkBlock b.1 b.2)).flatten)
        = mkFrag p c :: rest.map (fun b => mkFrag b.1 b.2)
  | [], p, c, hb, _ => by
    rw [show ((List.map (fun b => mkBlock b.1 b.2) ([] : List (Str × Str))).flatten)
        = ([] : Str) from rfl, List.append_nil]
    refine splitOnL_no_occ _ _ _ ?_
    intro hocc
    exact hb (infix_of_left _ hocc)
  | b' :: rest', p, c, hb, hrest => by
    have hshape : mkFrag p c ++ ((b' :: rest').map (fun b => mkBlock b.1 b.2)).flatten
        = mkFrag p c ++ ('-' :: " Path: ".data)
            ++ (mkFrag b'.1 b'.2 ++ (rest'.map (fun b => mkBlock b.1 b.2)).flatten) := by
      simp [mkBlock, pathMarker]
    rw [hshape, splitOnL_cut _ _ _ _ (by exact hb),
      splitOnL_frag_blocks rest' b'.1 b'.2 (hrest b' (by simp))
        (fun b hbm => hrest b (by simp [hbm]))]
    simp

/-- Splitting a canonical N-block response yields the empty preamble followed
by the N fragments. -/
lemma splitOnL_blocks (blocks : List (Str × Str))
    (hno : ∀ b ∈ blocks, ¬ pathMarker <:+: (mkFrag b.1 b.2 ++ pathMarker.dropLast)) :
    splitOnL '-' " Path: ".data ((blocks.map (fun b => mkBlock b.1 b.2)).flatten)
      = [] :: blocks.map (fun b => mkFrag b.1 b.2) := by
  cases blocks with
  | nil => simp [splitOnL_nil]
  | cons b rest =>
    have hshape : ((b :: rest).map (fun x => mkBlock x.1 x.2)).flatten
        = ([] : Str) ++ ('-' :: " Path: ".data)
            ++ (mkFrag b.1 b.2 ++ (rest.map (fun x => mkBlock x.1 x.2)).flatten) := by
      simp [mkBlock, pathMarker]
    rw [hshape, splitOnL_cut _ _ _ _ (by decide),
      splitOnL_frag_blocks rest b.1 b.2 (hno b (by simp))
        (fun x hxm => hno x (by simp [hxm]))]
    simp

/-- The line decomposition of a canonical fragment. -/
lemma lines_of_mkFrag (p c : Str) (hp : ('\n' : Char) ∉ p) :
    splitOnL '\n' [] (mkFrag p c)
      = p :: "- Content:".data :: splitOnL '\n' [] (c ++ ['\n']) := by
  have h1 : mkFrag p c
      = p ++ ('\n' :: ([] : Str))
          ++ ("- Content:".data ++ ('\n' :: ([] : Str)) ++ (c ++ ['\n'])) := by
    simp [mkFrag]
  rw [h1, splitOnL_cut _ _ _ _ (by
      intro hocc
      rw [show ('\n' :: ([] : Str)).dropLast = [] from rfl, List.append_nil] at hocc
      exact hp (singleton_infix_iff.mp hocc)),
    splitOnL_cut _ _ _ _ (by decide)]

/-- What processBlock does to a canonical fragment whose path contains no
newline and is already trimmed. -/
lemma processBlock_canonical (parse : Str → Pkg) (stringify : Pkg → Str)
    (lp : Str) (fsys : Fs) (acc : List ChangedFile) (p c : Str)
    (hpnl : ('\n' : Char) ∉ p) (hptrim : trimL p = p) :
    processBlock parse stringify lp (fsys, acc) (mkFrag p c)
      = if p = "package.json".data then
          (writeFs fsys (pathJoin lp p)
            (stringify (mergeManifest
              (match fsys (pathJoin lp p) with
               | some s => parse s
               | none => emptyPkg)
              (parse (cleanFileContent (c ++ ['\n']))))),
           acc ++ [⟨pathJoin lp p, p⟩])
        else
          (writeFs fsys (pathJoin lp p) (cleanFileContent (c ++ ['\n'])),
           acc ++ [⟨pathJoin lp p, p⟩]) := by
  have hpred : (contentMarker.isPrefixOf (trimL "- Content:".data)) = true := by decide
  simp only [processBlock, lines_of_mkFrag p c hpnl, List.headD_cons, List.tail_cons,
    List.findIdx?_cons, hpred, if_true, List.drop_succ_cons, List.drop_zero,
    intercalate_splitOnL, hptrim, emptyPkg]

/-- Folding processBlock over canonical fragments writes each file once and
records the paths in order; other keys of the filesystem are untouched. -/
lemma applyBlocks_canonical (parse : Str → Pkg) (stringify : Pkg → Str) (lp : Str) :
    ∀ (blocks : List (Str × Str)), ∀ (fsys : Fs) (acc : List ChangedFile),
      (∀ b ∈ blocks, ('\n' : Char) ∉ b.1 ∧ trimL b.1 = b.1
        ∧ b.1 ≠ "package.json".data ∧ b.2.getLast? ≠ some backtickChar) →
      (blocks.map (fun b => pathJoin lp b.1)).Nodup →
      ((blocks.map (fun b => mkFrag b.1 b.2)).foldl
          (processBlock parse stringify lp) (fsys, acc)).2
        = acc ++ blocks.map (fun b => (⟨pathJoin lp b.1, b.1⟩ : ChangedFile)) ∧
      (∀ b ∈ blocks,
        ((blocks.map (fun b => mkFrag b.1 b.2)).foldl
            (processBlock parse stringify lp) (fsys, acc)).1 (pathJoin lp b.1)
          = some (cleanFileContent b.2)) ∧
      (∀ k, (∀ b ∈ blocks, k ≠ pathJoin lp b.1) →
        ((blocks.map (fun b => mkFrag b.1 b.2)).foldl
            (processBlock parse stringify lp) (fsys, acc)).1 k = fsys k) := by
  intro blocks
  induction blocks with
  | nil =>
    intro fsys acc _ _
    exact ⟨by simp, by simp, fun k _ => by simp⟩
  | cons b rest ih =>
    intro fsys acc hyps hnodup
    obtain ⟨hbnl, hbtrim, hbpkg, hblast⟩ := hyps b (List.mem_cons_self b rest)
    have hstep : processBlock parse stringify lp (fsys, acc) (mkFrag b.1 b.2)
        = (writeFs fsys (pathJoin lp b.1) (cleanFileContent b.2),
           acc ++ [⟨pathJoin lp b.1, b.1⟩]) := by
      rw [processBlock_canonical parse stringify lp fsys acc b.1 b.2 hbnl hbtrim,
        if_neg hbpkg, clean_append_nl hblast]
    have hfold : (((b :: rest).map (fun x => mkFrag x.1 x.2)).foldl
          (processBlock parse stringify lp) (fsys, acc))
        = ((rest.map (fun x => mkFrag x.1 x.2)).foldl
            (processBlock parse stringify lp)
            (writeFs fsys (pathJoin lp b.1) (cleanFileContent b.2),
             acc ++ [⟨pathJoin lp b.1, b.1⟩])) := by
      simp only [List.map_cons, List.foldl_cons, hstep]
    have hnodup2 : ((b :: rest).map (fun y => pathJoin lp y.1)).Nodup := hnodup
    rw [List.map_cons, List.nodup_cons] at hnodup2
    have ihh := ih (writeFs fsys (pathJoin lp b.1) (cleanFileContent b.2))
      (acc ++ [⟨pathJoin lp b.1, b.1⟩])
      (fun x hx => hyps x (List.mem_cons_of_mem _ hx)) hnodup2.2
    refine ⟨?_, ?_, ?_⟩
    · rw [hfold, ihh.1]
      simp
    · intro x hx
      rcases List.mem_cons.mp hx with rfl | hx'
      · rw [hfold, ihh.2.2 (pathJoin lp x.1) ?_]
        · simp [writeFs]
        · intro b' hb' hkey
          exact hnodup2.1 (by
            rw [hkey]
            exact List.mem_map_of_mem (fun y => pathJoin lp y.1) hb')
      · rw [hfold]
        exact ihh.2.1 x hx'
    · intro k hk
      rw [hfold, ihh.2.2 k (fun b' hb' => hk b' (List.mem_cons_of_mem _ hb'))]
      have hkb : k ≠ pathJoin lp b.1 := hk b (List.mem_cons_self b rest)
      simp [writeFs, hkb]

/-- applyAiChanges on a canonical N-block response: the recorded relative
paths are the N paths in order, and each written file holds the cleaned
content of its block. -/
lemma applyAiChanges_canonical (parse : Str → Pkg) (stringify : Pkg → Str)
    (fsys : Fs) (lp : Str) (blocks : List (Str × Str))
    (hwf : ∀ b ∈ blocks, ('\n' : Char) ∉ b.1 ∧ trimL b.1 = b.1
      ∧ b.1 ≠ "package.json".data
      ∧ ¬ pathMarker <:+: b.1 ∧ ¬ pathMarker <:+: b.2 ∧ b.2.getLast? ≠ some backtickChar)
    (hkeys : (blocks.map (fun b => pathJoin lp b.1)).Nodup) :
    ((applyAiChanges parse stringify fsys lp
        ((blocks.map (fun b => mkBlock b.1 b.2)).flatten)).2.map
          (fun f => f.relativePath) = blocks.map (fun b => b.1))
    ∧ ∀ b ∈ blocks,
        (applyAiChanges parse stringify fsys lp
          ((blocks.map (fun b => mkBlock b.1 b.2)).flatten)).1 (pathJoin lp b.1)
          = some (cleanFileContent b.2) := by
  have hno : ∀ b ∈ blocks,
      ¬ pathMarker <:+: (mkFrag b.1 b.2 ++ pathMarker.dropLast) :=
    fun b hb => no_marker_in_frag (hwf b hb).2.2.2.1 (hwf b hb).2.2.2.2.1
  have hsplit : applyAiChanges parse stringify fsys lp
        ((blocks.map (fun b => mkBlock b.1 b.2)).flatten)
      = (blocks.map (fun b => mkFrag b.1 b.2)).foldl
          (processBlock parse stringify lp) (fsys, []) := by
    simp only [applyAiChanges, splitOnL_blocks blocks hno, List.drop_succ_cons,
      List.drop_zero]
  have hfold := applyBlocks_canonical parse stringify lp blocks fsys []
    (fun b hb => ⟨(hwf b hb).1, (hwf b hb).2.1, (hwf b hb).2.2.1,
      (hwf b hb).2.2.2.2.2⟩) hkeys
  constructor
  · rw [hsplit, hfold.1]
    simp
  · intro b hb
    rw [hsplit]
    exact hfold.2.1 b hb

end AiDev

namespace AiDev

/-- C2: for every response text consisting of N well-formed
"- Path: p / - Content: / c" blocks (paths non-manifest, without angle
brackets, newline-free, trimmed, and neither paths nor contents containing
the "- Path: " marker; distinct write targets), applyAiChanges returns
exactly the N relative paths in block order, and the on-disk content of each
written file equals the cleaned content of its block. -/
theorem C2_parse_roundtrip (parse : Str → Pkg) (stringify : Pkg → Str)
    (fsys : Fs) (lp : Str) (blocks : List (Str × Str))
    (hwf : ∀ b ∈ blocks, ('\n' : Char) ∉ b.1 ∧ trimL b.1 = b.1
      ∧ b.1 ≠ "package.json".data ∧ ('<' : Char) ∉ b.1 ∧ ('>' : Char) ∉ b.1
      ∧ ¬ pathMarker <:+: b.1 ∧ ¬ pathMarker <:+: b.2 ∧ b.2.getLast? ≠ some backtickChar)
    (hkeys : (blocks.map (fun b => pathJoin lp b.1)).Nodup) :
    ((applyAiChanges parse stringify fsys lp
        ((blocks.map (fun b => mkBlock b.1 b.2)).flatten)).2.map
          (fun f => f.relativePath) = blocks.map (fun b => b.1))
    ∧ ∀ b ∈ blocks,
        (applyAiChanges parse stringify fsys lp
          ((blocks.map (fun b => mkBlock b.1 b.2)).flatten)).1 (pathJoin lp b.1)
          = some (cleanFileContent b.2) :=
  applyAiChanges_canonical parse stringify fsys lp blocks
    (fun b hb => ⟨(hwf b hb).1, (hwf b hb).2.1, (hwf b hb).2.2.1,
      (hwf b hb).2.2.2.2.2.1, (hwf b hb).2.2.2.2.2.2.1,
      (hwf b hb).2.2.2.2.2.2.2⟩) hkeys

/-- Witness for C2 at a concrete two-block response. -/
theorem C2_parse_roundtrip_witness :
    ((applyAiChanges (fun _ => emptyPkg) (fun _ => []) (fun _ => none) "/w".data
        ((([("a.ts".data, "x".data), ("b.ts".data, "y".data)] : List (Str × Str)).map
          (fun b => mkBlock b.1 b.2)).flatten)).2.map
            (fun f => f.relativePath) = ["a.ts".data, "b.ts".data])
    ∧ (applyAiChanges (fun _ => emptyPkg) (fun _ => []) (fun _ => none) "/w".data
        ((([("a.ts".data, "x".data), ("b.ts".data, "y".data)] : List (Str × Str)).map
          (fun b => mkBlock b.1 b.2)).flatten)).1
            (pathJoin "/w".data "a.ts".data) = some (cleanFileContent "x".data) := by
  have h := C2_parse_roundtrip (fun _ => emptyPkg) (fun _ => []) (fun _ => none)
    "/w".data [("a.ts".data, "x".data), ("b.ts".data, "y".data)]
    (by decide) (by decide)
  exact ⟨h.1, h.2 ("a.ts".data, "x".data) (by decide)⟩

/-- C3: when applyAiChanges processes a package.json block, the written
manifest is the stringified additive merge of the existing manifest with the
model-provided one, and the merge keeps every existing key of the scripts,
dependencies and devDependencies sections, adding only keys absent from the
existing section. -/
theorem C3_manifest_merge (parse : Str → Pkg) (stringify : Pkg → Str)
    (fsys : Fs) (lp : Str) (existingStr c : Str)
    (hc : ¬ pathMarker <:+: c)
    (hfs : fsys (pathJoin lp "package.json".data) = some existingStr) :
    ((applyAiChanges parse stringify fsys lp (mkBlock "package.json".data c)).1
        (pathJoin lp "package.json".data)
      = some (stringify (mergeManifest (parse existingStr)
          (parse (cleanFileContent (c ++ ['\n']))))))
    ∧ (∀ e a : Pkg, ∀ k : Str,
        ((e.scripts k).isSome = true →
          (mergeManifest e a).scripts k = e.scripts k) ∧
        (e.scripts k = none →
          (mergeManifest e a).scripts k = a.scripts k) ∧
        ((e.dependencies k).isSome = true →
          (mergeManifest e a).dependencies k = e.dependencies k) ∧
        (e.dependencies k = none →
          (mergeManifest e a).dependencies k = a.dependencies k) ∧
        ((e.devDependencies k).isSome = true →
          (mergeManifest e a).devDependencies k = e.devDependencies k) ∧
        (e.devDependencies k = none →
          (mergeManifest e a).devDependencies k = a.devDependencies k)) := by
  constructor
  · have hnofrag : ¬ pathMarker <:+:
        (mkFrag "package.json".data c ++ pathMarker.dropLast) :=
      no_marker_in_frag (by decide) hc
    have hshape : mkBlock "package.json".data c
        = ([] : Str) ++ ('-' :: " Path: ".data) ++ mkFrag "package.json".data c := by
      simp [mkBlock, pathMarker]
    have hsplit : splitOnL '-' " Path: ".data (mkBlock "package.json".data c)
        = [[], mkFrag "package.json".data c] := by
      rw [hshape, splitOnL_cut _ _ _ _ (by decide)]
      rw [splitOnL_no_occ _ _ _ (fun hocc => hnofrag (infix_of_left _ hocc))]
    have hstep := processBlock_canonical parse stringify lp fsys []
      "package.json".data c (by decide) (by decide)
    rw [if_pos rfl, hfs] at hstep
    simp only [applyAiChanges, hsplit, List.drop_succ_cons, List.drop_zero,
      List.foldl_cons, List.foldl_nil, hstep]
    simp [writeFs]
  · intro e a k
    have merge1 : ∀ (es as : Sect),
        ((es k).isSome = true →
          jsSpread es (jsFilterKeys (fun key => !(jsIn key es)) as) k = es k) ∧
        (es k = none →
          jsSpread es (jsFilterKeys (fun key => !(jsIn key es)) as) k = as k) := by
      intro es as
      constructor
      · intro h
        obtain ⟨v, hv⟩ := Option.isSome_iff_exists.mp h
        simp [jsSpread, jsFilterKeys, jsIn, hv]
      · intro h
        simp only [jsSpread, jsFilterKeys, jsIn, h, Option.isSome_none,
          Bool.not_false, if_true]
        cases ha : as k <;> simp [ha, h]
    exact ⟨(merge1 e.scripts a.scripts).1, (merge1 e.scripts a.scripts).2,
      (merge1 e.dependencies a.dependencies).1, (merge1 e.dependencies a.dependencies).2,
      (merge1 e.devDependencies a.devDependencies).1,
      (merge1 e.devDependencies a.devDependencies).2⟩

/-- Witness for C3 at a concrete filesystem holding an existing manifest. -/
theorem C3_manifest_merge_witness :
    (applyAiChanges (fun _ => emptyPkg) (fun _ => "m".data)
        (fun k => if k = "/w/package.json".data then some "old".data else none)
        "/w".data (mkBlock "package.json".data "pkg".data)).1
        (pathJoin "/w".data "package.json".data)
      = some "m".data :=
  (C3_manifest_merge (fun _ => emptyPkg) (fun _ => "m".data)
    (fun k => if k = "/w/package.json".data then some "old".data else none)
    "/w".data "old".data "pkg".data (by decide) (by decide)).1

/-- C4 counterexample: utils.ts applyAiChanges does not reject the
placeholder path "<path/to/file>": the block is written and its path is
recorded. -/
theorem C4_counterexample :
    ((applyAiChanges (fun _ => emptyPkg) (fun _ => []) (fun _ => none) "/w".data
        (mkBlock "<path/to/file>".data "x".data)).2.map (fun f => f.relativePath)
      = ["<path/to/file>".data])
    ∧ (applyAiChanges (fun _ => emptyPkg) (fun _ => []) (fun _ => none) "/w".data
        (mkBlock "<path/to/file>".data "x".data)).1
          (pathJoin "/w".data "<path/to/file>".data) = some "x".data := by
  decide

/-- C4 (amended): applyAiChanges of src/utils.ts performs no placeholder-path
rejection: a well-formed block whose path contains the character < or > is
processed like any other block - the file is written and the path recorded. -/
theorem C4_no_placeholder_rejection (parse : Str → Pkg) (stringify : Pkg → Str)
    (fsys : Fs) (lp p c : Str)
    (hang : ('<' : Char) ∈ p ∨ ('>' : Char) ∈ p)
    (hpnl : ('\n' : Char) ∉ p) (hptrim : trimL p = p)
    (hppkg : p ≠ "package.json".data)
    (hpm : ¬ pathMarker <:+: p) (hcm : ¬ pathMarker <:+: c)
    (hcl : c.getLast? ≠ some backtickChar) :
    ((applyAiChanges parse stringify fsys lp (mkBlock p c)).2.map
        (fun f => f.relativePath) = [p])
    ∧ (applyAiChanges parse stringify fsys lp (mkBlock p c)).1 (pathJoin lp p)
        = some (cleanFileContent c) := by
  have h := applyAiChanges_canonical parse stringify fsys lp [(p, c)]
    (by intro b hb; rw [List.mem_singleton] at hb; subst hb
        exact ⟨hpnl, hptrim, hppkg, hpm, hcm, hcl⟩)
    (by simp)
  have hresp : (([(p, c)] : List (Str × Str)).map
      (fun b => mkBlock b.1 b.2)).flatten = mkBlock p c := by simp
  rw [hresp] at h
  exact ⟨h.1, h.2 (p, c) (List.mem_singleton.mpr rfl)⟩

/-- Witness for the amended C4 at the placeholder path itself. -/
theorem C4_no_placeholder_rejection_witness :
    ((applyAiChanges (fun _ => emptyPkg) (fun _ => []) (fun _ => none) "/w".data
        (mkBlock "<path/to/file>.ts".data "y".data)).2.map
          (fun f => f.relativePath) = ["<path/to/file>.ts".data])
    ∧ (applyAiChanges (fun _ => emptyPkg) (fun _ => []) (fun _ => none) "/w".data
        (mkBlock "<path/to/file>.ts".data "y".data)).1
          (pathJoin "/w".data "<path/to/file>.ts".data)
        = some (cleanFileContent "y".data) :=
  C4_no_placeholder_rejection (fun _ => emptyPkg) (fun _ => []) (fun _ => none)
    "/w".data "<path/to/file>.ts".data "y".data (by decide) (by decide)
    (by decide) (by decide) (by decide) (by decide) (by decide)

/-- C8: malformed blocks never fail the apply step: a fragment with no
"- Content:" line leaves the state unchanged (no write, nothing recorded); a
response whose fragments all lack the marker yields the untouched filesystem
and an empty changed list; and removing such a fragment from a fragment
sequence does not change the result of applying the rest. -/
theorem C8_malformed_blocks (parse : Str → Pkg) (stringify : Pkg → Str)
    (fsys : Fs) (lp resp : Str) :
    (∀ (st : Fs × List ChangedFile) (block : Str),
       (splitOnL '\n' [] block).tail.findIdx?
           (fun line => contentMarker.isPrefixOf (trimL line)) = none →
       processBlock parse stringify lp st block = st)
    ∧ ((∀ frag ∈ (splitOnL '-' " Path: ".data resp).drop 1,
          (splitOnL '\n' [] frag).tail.findIdx?
            (fun line => contentMarker.isPrefixOf (trimL line)) = none) →
        applyAiChanges parse stringify fsys lp resp = (fsys, []))
    ∧ (∀ (st : Fs × List ChangedFile) (l₁ l₂ : List Str) (bad : Str),
        (splitOnL '\n' [] bad).tail.findIdx?
          (fun line => contentMarker.isPrefixOf (trimL line)) = none →
        (l₁ ++ bad :: l₂).foldl (processBlock parse stringify lp) st
          = (l₁ ++ l₂).foldl (processBlock parse stringify lp) st) := by
  have hskip : ∀ (st : Fs × List ChangedFile) (block : Str),
      (splitOnL '\n' [] block).tail.findIdx?
          (fun line => contentMarker.isPrefixOf (trimL line)) = none →
      processBlock parse stringify lp st block = st := by
    intro st block h
    cases st with
    | mk f ch => simp only [processBlock, h]
  refine ⟨hskip, ?_, ?_⟩
  · intro hall
    have hfold : ∀ (L : List Str),
        (∀ frag ∈ L, (splitOnL '\n' [] frag).tail.findIdx?
          (fun line => contentMarker.isPrefixOf (trimL line)) = none) →
        ∀ (st : Fs × List ChangedFile),
          L.foldl (processBlock parse stringify lp) st = st := by
      intro L
      induction L with
      | nil => intro _ st; rfl
      | cons x xs ihx =>
        intro hx st
        rw [List.foldl_cons, hskip st x (hx x (List.mem_cons_self x xs))]
        exact ihx (fun y hy => hx y (List.mem_cons_of_mem _ hy)) st
    exact hfold _ hall (fsys, [])
  · intro st l₁ l₂ bad hbad
    rw [List.foldl_append, List.foldl_append, List.foldl_cons,
      hskip (l₁.foldl (processBlock parse stringify lp) st) bad hbad]

/-- Witness for C8: a response whose single fragment has no "- Content:"
marker yields no writes and an empty changed list. -/
theorem C8_malformed_blocks_witness :
    applyAiChanges (fun _ => emptyPkg) (fun _ => []) (fun _ => none) "/w".data
        "- Path: foo.ts\nnothing here".data
      = ((fun _ => none), []) :=
  (C8_malformed_blocks (fun _ => emptyPkg) (fun _ => []) (fun _ => none)
    "/w".data "- Path: foo.ts\nnothing here".data).2.1 (by decide)

lemma errMsgOf_ne_nil (o : Option Str) : errMsgOf o ≠ [] := by
  cases o with
  | none => decide
  | some m =>
    rcases eq_or_ne m [] with rfl | hm
    · decide
    · simpa [errMsgOf, hm] using hm

lemma jsTruthyO_some_ne {s : Str} (h : s ≠ []) : jsTruthyO (some s) = true := by
  cases s with
  | nil => exact absurd rfl h
  | cons a l => rfl

lemma ao_fail_cond {env : LoopEnv} {i : Nat}
    (h : (buildProject (env.exec i)).success = false) :
    (!(jsTruthyO (attemptOutcome env i).1)
      && !(jsTruthyO (attemptOutcome env i).2)) = false := by
  simp only [attemptOutcome]
  rw [h]
  by_cases hT : jsIncludes (errMsgOf (buildProject (env.exec i)).errorOutput)
      testFailedMarker
  · simp [hT, jsTruthyO_some_ne (errMsgOf_ne_nil _)]
  · simp [hT, jsTruthyO_some_ne (errMsgOf_ne_nil _)]

lemma ao_fail_some {env : LoopEnv} {i : Nat}
    (h : (buildProject (env.exec i)).success = false) :
    (attemptOutcome env i).1.isSome = true ∨ (attemptOutcome env i).2.isSome = true := by
  simp only [attemptOutcome]
  rw [h]
  by_cases hT : jsIncludes (errMsgOf (buildProject (env.exec i)).errorOutput)
      testFailedMarker
  · simp [hT]
  · simp [hT]

lemma ao_fail_interp {env : LoopEnv} {i : Nat}
    (h : (buildProject (env.exec i)).success = false) :
    jsInterp (jsOrOpt (attemptOutcome env i).1 (attemptOutcome env i).2)
      = errMsgOf (buildProject (env.exec i)).errorOutput := by
  simp only [attemptOutcome]
  rw [h]
  by_cases hT : jsIncludes (errMsgOf (buildProject (env.exec i)).errorOutput)
      testFailedMarker
  · simp only [hT, Bool.false_eq_true, if_false, if_true]
    cases ho : (buildProject (env.exec i)).errorOutput with
    | none => simp [jsOrOpt, jsTruthyO, jsInterp]
    | some s =>
      rcases eq_or_ne s [] with rfl | hs
      · simp [jsOrOpt, jsTruthyO, jsInterp, errMsgOf, ho]
      · simp [jsOrOpt, jsTruthyO_some_ne hs, jsInterp, errMsgOf, ho, hs]
  · simp [hT, jsOrOpt, jsTruthyO_some_ne (errMsgOf_ne_nil _), jsInterp]

lemma ao_fail_eq {env : LoopEnv} {i : Nat}
    (h : (buildProject (env.exec i)).success = false) :
    ∀ E, ((attemptOutcome env i).1 = some E ∨ (attemptOutcome env i).2 = some E) →
      E = errMsgOf (buildProject (env.exec i)).errorOutput := by
  intro E hE
  simp only [attemptOutcome] at hE
  rw [h] at hE
  by_cases hT : jsIncludes (errMsgOf (buildProject (env.exec i)).errorOutput)
      testFailedMarker
  · simp only [hT, Bool.false_eq_true, if_false, if_true] at hE
    rcases hE with hE | hE
    · -- buildError kept the raw errorOutput; under the Test-failed marker the
      -- message cannot be the "Error" fallback, so errorOutput is E itself
      cases ho : (buildProject (env.exec i)).errorOutput with
      | none => rw [ho] at hE; cases hE
      | some s =>
        rw [ho] at hE
        have hsE : s = E := by simpa using hE
        subst hsE
        rcases eq_or_ne s [] with rfl | hs
        · rw [ho] at hT
          simp only [errMsgOf] at hT
          exact absurd hT (by decide)
        · simp [errMsgOf, ho, hs]
    · simpa using hE.symm
  · simp only [hT, Bool.false_eq_true, if_false] at hE
    rcases hE with hE | hE
    · simpa using hE.symm
    · cases hE

/-- On a successful build the iteration stops with a single clean record. -/
lemma iterGo_succ_stop (env : LoopEnv) (lp summary : Str) {n attempt : Nat}
    {desc : Str} {fsys : Fs} {acc : List Str}
    (hS : (buildProject (env.exec attempt)).success = true) :
    ∃ (ch : List Str) (iter : IterationResult),
      iterGo env lp summary (n+1) attempt desc fsys acc = (ch, [iter]) ∧
      iter.attempt = attempt + 1 ∧
      iter.prompt = buildPrompt (env.gather attempt
        (summary ++ "\n\n".data ++ desc)) summary desc ∧
      iter.buildError = none ∧ iter.testFailures = none := by
  have hbt : attemptOutcome env attempt = (none, none) := by
    simp [attemptOutcome, hS]
  have hcond : (!(jsTruthyO (attemptOutcome env attempt).1)
      && !(jsTruthyO (attemptOutcome env attempt).2)) = true := by
    rw [hbt]
    rfl
  simp only [iterGo]
  rw [if_pos hcond]
  refine ⟨_, _, rfl, rfl, rfl, ?_, ?_⟩
  · show (attemptOutcome env attempt).1 = none
    rw [hbt]
  · show (attemptOutcome env attempt).2 = none
    rw [hbt]

/-- On a failed build the iteration records the caught error and recurses
with the retry description embedding the error text. -/
lemma iterGo_succ_cont (env : LoopEnv) (lp summary : Str) {n attempt : Nat}
    {desc : Str} {fsys : Fs} {acc : List Str}
    (hS : (buildProject (env.exec attempt)).success = false) :
    ∃ (iter : IterationResult) (fsys' : Fs) (acc' ch : List Str),
      iterGo env lp summary (n+1) attempt desc fsys acc
        = (ch, iter :: (iterGo env lp summary n (attempt+1)
            (retryDesc (errMsgOf (buildProject (env.exec attempt)).errorOutput))
            fsys' acc').2) ∧
      iter.attempt = attempt + 1 ∧
      iter.prompt = buildPrompt (env.gather attempt
        (summary ++ "\n\n".data ++ desc)) summary desc ∧
      (iter.buildError.isSome = true ∨ iter.testFailures.isSome = true) ∧
      (∀ E, iter.buildError = some E ∨ iter.testFailures = some E →
        E = errMsgOf (buildProject (env.exec attempt)).errorOutput) := by
  have hcond : ¬ ((!(jsTruthyO (attemptOutcome env attempt).1)
      && !(jsTruthyO (attemptOutcome env attempt).2)) = true) := by
    rw [ao_fail_cond hS]
    simp
  simp only [iterGo]
  rw [if_neg hcond, ao_fail_interp hS]
  exact ⟨_, _, _, _, rfl, rfl, rfl, ao_fail_some hS, ao_fail_eq hS⟩

/-- The loop invariant behind C1: the log is bounded by the fuel, every entry
before the last is a failure, and the last entry is clean unless the fuel ran
out. -/
lemma iterGo_bounded (env : LoopEnv) (lp summary : Str) :
    ∀ (fuel attempt : Nat) (desc : Str) (fsys : Fs) (acc : List Str),
      (iterGo env lp summary fuel attempt desc fsys acc).2.length ≤ fuel ∧
      (∀ it ∈ (iterGo env lp summary fuel attempt desc fsys acc).2.dropLast,
        it.buildError.isSome = true ∨ it.testFailures.isSome = true) ∧
      (∀ last, (iterGo env lp summary fuel attempt desc fsys acc).2.getLast?
          = some last →
        (last.buildError = none ∧ last.testFailures = none)
          ∨ (iterGo env lp summary fuel attempt desc fsys acc).2.length = fuel) ∧
      (0 < fuel → (iterGo env lp summary fuel attempt desc fsys acc).2 ≠ []) := by
  intro fuel
  induction fuel with
  | zero =>
    intro attempt desc fsys acc
    refine ⟨by simp [iterGo], by simp [iterGo], ?_, by simp⟩
    intro last hlast
    rw [show iterGo env lp summary 0 attempt desc fsys acc = (acc, []) from rfl]
      at hlast
    simp at hlast
  | succ n ih =>
    intro attempt desc fsys acc
    cases hS : (buildProject (env.exec attempt)).success with
    | true =>
      obtain ⟨ch, iter, heq, _, _, hbe, htf⟩ := iterGo_succ_stop env lp summary hS
      rw [heq]
      refine ⟨by simp, by simp, ?_, by simp⟩
      intro last hlast
      simp only [List.getLast?_singleton, Option.some.injEq] at hlast
      subst hlast
      exact Or.inl ⟨hbe, htf⟩
    | false =>
      obtain ⟨iter, fsys', acc', ch, heq, hatt, hpr, hsome, _⟩ :=
        iterGo_succ_cont env lp summary hS
      rw [heq]
      obtain ⟨ihlen, ihdrop, ihlast, ihne⟩ := ih (attempt+1)
        (retryDesc (errMsgOf (buildProject (env.exec attempt)).errorOutput))
        fsys' acc'
      refine ⟨by simpa using ihlen, ?_, ?_, by simp⟩
      · intro it hit
        cases hRnil : (iterGo env lp summary n (attempt+1)
            (retryDesc (errMsgOf (buildProject (env.exec attempt)).errorOutput))
            fsys' acc').2 with
        | nil => rw [hRnil] at hit; simp at hit
        | cons r rs =>
          rw [hRnil] at hit
          rw [show (iter :: r :: rs).dropLast = iter :: (r :: rs).dropLast from rfl]
            at hit
          rcases List.mem_cons.mp hit with rfl | hit'
          · exact hsome
          · have := ihdrop it
            rw [hRnil] at this
            exact this hit'
      · intro last hlast
        cases hRnil : (iterGo env lp summary n (attempt+1)
            (retryDesc (errMsgOf (buildProject (env.exec attempt)).errorOutput))
            fsys' acc').2 with
        | nil =>
          rcases Nat.eq_zero_or_pos n with rfl | hn
          · right
            simp
          · exact absurd hRnil (ihne hn)
        | cons r rs =>
          rw [hRnil] at hlast
          rw [show ((ch, iter :: r :: rs).2).getLast? = (r :: rs).getLast?
            from List.getLast?_cons_cons ..] at hlast
          have := ihlast last
          rw [hRnil] at this
          rcases this hlast with hok | hlen
          · exact Or.inl hok
          · right
            simp only [List.length_cons] at hlen ⊢
            omega

/-- The first record of the loop carries the prompt built from the current
description. -/
lemma iterGo_head_prompt (env : LoopEnv) (lp summary : Str) :
    ∀ (fuel attempt : Nat) (desc : Str) (fsys : Fs) (acc : List Str)
      (it : IterationResult),
      (iterGo env lp summary fuel attempt desc fsys acc).2.head? = some it →
      it.prompt = buildPrompt (env.gather attempt
        (summary ++ "\n\n".data ++ desc)) summary desc := by
  intro fuel attempt desc fsys acc it hit
  cases fuel with
  | zero =>
    rw [show iterGo env lp summary 0 attempt desc fsys acc = (acc, []) from rfl]
      at hit
    simp at hit
  | succ n =>
    cases hS : (buildProject (env.exec attempt)).success with
    | true =>
      obtain ⟨ch, iter, heq, _, hpr, _, _⟩ := iterGo_succ_stop env lp summary hS
      rw [heq] at hit
      simp only [List.head?_cons, Option.some.injEq] at hit
      exact hit ▸ hpr
    | false =>
      obtain ⟨iter, fsys', acc', ch, heq, _, hpr, _, _⟩ :=
        iterGo_succ_cont env lp summary hS
      rw [heq] at hit
      simp only [List.head?_cons, Option.some.injEq] at hit
      exact hit ▸ hpr

/-- Every recorded prompt of the loop is buildPrompt applied to some context
and description with the unchanged summary. -/
lemma iterGo_all_prompts (env : LoopEnv) (lp summary : Str) :
    ∀ (fuel attempt : Nat) (desc : Str) (fsys : Fs) (acc : List Str)
      (j : Nat) (it : IterationResult),
      (iterGo env lp summary fuel attempt desc fsys acc).2.get? j = some it →
      ∃ ctx d, it.prompt = buildPrompt ctx summary d := by
  intro fuel
  induction fuel with
  | zero =>
    intro attempt desc fsys acc j it hit
    rw [show iterGo env lp summary 0 attempt desc fsys acc = (acc, []) from rfl]
      at hit
    simp at hit
  | succ n ih =>
    intro attempt desc fsys acc j it hit
    cases hS : (buildProject (env.exec attempt)).success with
    | true =>
      obtain ⟨ch, iter, heq, _, hpr, _, _⟩ := iterGo_succ_stop env lp summary hS
      rw [heq] at hit
      cases j with
      | zero =>
        simp only [List.get?_cons_zero, Option.some.injEq] at hit
        exact ⟨_, _, hit ▸ hpr⟩
      | succ j' => simp at hit
    | false =>
      obtain ⟨iter, fsys', acc', ch, heq, _, hpr, _, _⟩ :=
        iterGo_succ_cont env lp summary hS
      rw [heq] at hit
      cases j with
      | zero =>
        simp only [List.get?_cons_zero, Option.some.injEq] at hit
        exact ⟨_, _, hit ▸ hpr⟩
      | succ j' =>
        rw [show ((ch, iter :: (iterGo env lp summary n (attempt+1)
            (retryDesc (errMsgOf (buildProject (env.exec attempt)).errorOutput))
            fsys' acc').2).2).get? (j'+1)
          = ((iterGo env lp summary n (attempt+1)
            (retryDesc (errMsgOf (buildProject (env.exec attempt)).errorOutput))
            fsys' acc').2).get? j' from rfl] at hit
        exact ih (attempt+1) _ fsys' acc' j' it hit

/-- After a failed attempt recorded at position j with error text E, the
record at position j+1 carries the prompt built from the retry description
embedding E. -/
lemma iterGo_next_prompt (env : LoopEnv) (lp summary : Str) :
    ∀ (fuel attempt : Nat) (desc : Str) (fsys : Fs) (acc : List Str)
      (j : Nat) (it it' : IterationResult) (E : Str),
      (iterGo env lp summary fuel attempt desc fsys acc).2.get? j = some it →
      (iterGo env lp summary fuel attempt desc fsys acc).2.get? (j+1) = some it' →
      (it.buildError = some E ∨ it.testFailures = some E) →
      it'.prompt = buildPrompt (env.gather (attempt + j + 1)
        (summary ++ "\n\n".data ++ retryDesc E)) summary (retryDesc E) := by
  intro fuel
  induction fuel with
  | zero =>
    intro attempt desc fsys acc j it it' E hit _ _
    rw [show iterGo env lp summary 0 attempt desc fsys acc = (acc, []) from rfl]
      at hit
    simp at hit
  | succ n ih =>
    intro attempt desc fsys acc j it it' E hit hit' hE
    cases hS : (buildProject (env.exec attempt)).success with
    | true =>
      obtain ⟨ch, iter, heq, _, _, _, _⟩ := iterGo_succ_stop env lp summary hS
      rw [heq] at hit'
      simp at hit'
    | false =>
      obtain ⟨iter, fsys', acc', ch, heq, _, _, _, heqE⟩ :=
        iterGo_succ_cont env lp summary hS
      rw [heq] at hit hit'
      cases j with
      | zero =>
        simp only [List.get?_cons_zero, Option.some.injEq] at hit
        have hEm : E = errMsgOf (buildProject (env.exec attempt)).errorOutput :=
          heqE E (by rw [hit]; exact hE)
        have hhead := iterGo_head_prompt env lp summary n (attempt+1)
          (retryDesc (errMsgOf (buildProject (env.exec attempt)).errorOutput))
          fsys' acc' it' (by
            rw [show ((iterGo env lp summary n (attempt+1)
              (retryDesc (errMsgOf (buildProject (env.exec attempt)).errorOutput))
              fsys' acc').2).head?
              = ((ch, iter :: (iterGo env lp summary n (attempt+1)
                (retryDesc (errMsgOf (buildProject (env.exec attempt)).errorOutput))
                fsys' acc').2).2).get? 1 from ?_]
            · exact hit'
            · cases hR : (iterGo env lp summary n (attempt+1)
                (retryDesc (errMsgOf (buildProject (env.exec attempt)).errorOutput))
                fsys' acc').2 <;> simp [hR])
        rw [← hEm] at hhead
        simpa using hhead
      | succ j' =>
        rw [show ((ch, iter :: (iterGo env lp summary n (attempt+1)
            (retryDesc (errMsgOf (buildProject (env.exec attempt)).errorOutput))
            fsys' acc').2).2).get? (j'+1)
          = ((iterGo env lp summary n (attempt+1)
            (retryDesc (errMsgOf (buildProject (env.exec attempt)).errorOutput))
            fsys' acc').2).get? j' from rfl] at hit
        rw [show ((ch, iter :: (iterGo env lp summary n (attempt+1)
            (retryDesc (errMsgOf (buildProject (env.exec attempt)).errorOutput))
            fsys' acc').2).2).get? (j'+1+1)
          = ((iterGo env lp summary n (attempt+1)
            (retryDesc (errMsgOf (buildProject (env.exec attempt)).errorOutput))
            fsys' acc').2).get? (j'+1) from rfl] at hit'
        have := ih (attempt+1) _ fsys' acc' j' it it' E hit hit' hE
        rw [show attempt + 1 + j' + 1 = attempt + (j' + 1) + 1 by omega] at this
        exact this

/-- The retry error text survives verbatim inside the next prompt. -/
lemma infix_buildPrompt_retry (ctx summary E : Str) :
    E <:+: buildPrompt ctx summary (retryDesc E) := by
  unfold buildPrompt retryDesc
  have hshape : promptPre ++ (if ctx = [] then noFilesFallback else ctx)
        ++ promptMid ++ summary
        ++ '\n' :: (("Previous code generated errors:\n".data ++ E
          ++ "\nPlease provide corrected code changes.".data) ++ promptSuf)
      = (promptPre ++ ((if ctx = [] then noFilesFallback else ctx)
          ++ promptMid ++ summary
          ++ '\n' :: "Previous code generated errors:\n".data))
        ++ E
        ++ ("\nPlease provide corrected code changes.".data ++ promptSuf) := by
    simp
  rw [hshape]
  apply infix_trimL
  · exact ⟨'Y', List.mem_append_left _ (by decide), by decide⟩
  · exact ⟨'P', List.mem_append_left _ (by decide), by decide⟩

/-- C10: applyAiChanges performs no containment check on the parsed relative
path: for the response block with path ../outside.txt the resolved write
target of path.join escapes the working directory /work/dir, the file is
written there, and the path is recorded as changed. -/
theorem C10_path_escape :
    (pathJoin "/work/dir".data "../outside.txt".data = "/work/outside.txt".data)
    ∧ (¬ ("/work/dir/".data <+: pathJoin "/work/dir".data "../outside.txt".data))
    ∧ (pathJoin "/work/dir".data "../outside.txt".data ≠ "/work/dir".data)
    ∧ ((applyAiChanges (fun _ => emptyPkg) (fun _ => []) (fun _ => none)
          "/work/dir".data (mkBlock "../outside.txt".data "hello".data)).1
          "/work/outside.txt".data = some "hello".data)
    ∧ ((applyAiChanges (fun _ => emptyPkg) (fun _ => []) (fun _ => none)
          "/work/dir".data (mkBlock "../outside.txt".data "hello".data)).2
        = [⟨"/work/outside.txt".data, "../outside.txt".data⟩]) := by
  decide

/-- C1: MAX_RETRIES is 3; the iteration log of iterativeCodeGeneration has at
most MAX_RETRIES entries; every entry before the last records a build or test
failure (so the loop stopped at the first clean attempt); the last entry is
clean unless the log is full with MAX_RETRIES failed entries; and the loop
always runs at least one attempt. -/
theorem C1_retry_bound (env : LoopEnv) (fsys : Fs)
    (lp issueKey summary description : Str) :
    MAX_RETRIES = 3 ∧
    (iterativeCodeGeneration env fsys lp issueKey summary description).iterations.length
        ≤ MAX_RETRIES ∧
    (∀ it ∈ (iterativeCodeGeneration env fsys lp issueKey summary
        description).iterations.dropLast,
      it.buildError.isSome = true ∨ it.testFailures.isSome = true) ∧
    (∀ last,
      (iterativeCodeGeneration env fsys lp issueKey summary
          description).iterations.getLast? = some last →
      (last.buildError = none ∧ last.testFailures = none)
        ∨ (iterativeCodeGeneration env fsys lp issueKey summary
            description).iterations.length = MAX_RETRIES) ∧
    (iterativeCodeGeneration env fsys lp issueKey summary description).iterations
      ≠ [] := by
  have h := iterGo_bounded env lp summary MAX_RETRIES 0 description fsys []
  exact ⟨rfl, h.1, h.2.1, h.2.2.1, h.2.2.2 (by decide)⟩

/-- C5: every attempt's prompt is buildPrompt applied to some context and
description with the unchanged summary argument (only the description
mutates), and whenever the attempt at position j failed with error text E
(recorded as buildError or testFailures) and an attempt j+1 exists, the
prompt of attempt j+1 is built from the synthetic retry description that
embeds E between the correction instructions, and contains E verbatim. -/
theorem C5_error_feedback (env : LoopEnv) (fsys : Fs)
    (lp issueKey summary description : Str) (j : Nat) (E : Str)
    (hfail : ∃ it,
      (iterativeCodeGeneration env fsys lp issueKey summary
          description).iterations.get? j = some it
        ∧ (it.buildError = some E ∨ it.testFailures = some E))
    (hnext : ∃ it',
      (iterativeCodeGeneration env fsys lp issueKey summary
          description).iterations.get? (j+1) = some it') :
    (∀ (j' : Nat) (it : IterationResult),
      (iterativeCodeGeneration env fsys lp issueKey summary
          description).iterations.get? j' = some it →
      ∃ ctx d, it.prompt = buildPrompt ctx summary d)
    ∧ ∃ it' ctx,
        (iterativeCodeGeneration env fsys lp issueKey summary
            description).iterations.get? (j+1) = some it'
        ∧ it'.prompt = buildPrompt ctx summary (retryDesc E)
        ∧ E <:+: it'.prompt := by
  obtain ⟨it, hit, hE⟩ := hfail
  obtain ⟨it', hit'⟩ := hnext
  have hp := iterGo_next_prompt env lp summary MAX_RETRIES 0 description fsys []
    j it it' E hit hit' hE
  refine ⟨?_, it',
    env.gather (0 + j + 1) (summary ++ "\n\n".data ++ retryDesc E), hit', ?_, ?_⟩
  · intro j' x hx
    exact iterGo_all_prompts env lp summary MAX_RETRIES 0 description fsys [] j' x hx
  · exact hp
  · rw [hp]
    exact infix_buildPrompt_retry _ _ _

/-- Witness for C5: the first build fails with "boom"; the second attempt's
prompt embeds that text verbatim inside the retry description. -/
theorem C5_error_feedback_witness :
    (∀ (j' : Nat) (it : IterationResult),
      (iterativeCodeGeneration wEnv (fun _ => none) "/w".data "k".data "s".data
          "d".data).iterations.get? j' = some it →
      ∃ ctx d, it.prompt = buildPrompt ctx "s".data d)
    ∧ ∃ it' ctx,
        (iterativeCodeGeneration wEnv (fun _ => none) "/w".data "k".data "s".data
            "d".data).iterations.get? 1 = some it'
        ∧ it'.prompt = buildPrompt ctx "s".data (retryDesc "boom".data)
        ∧ "boom".data <:+: it'.prompt :=
  C5_error_feedback wEnv (fun _ => none) "/w".data "k".data "s".data "d".data
    0 "boom".data ⟨_, rfl, Or.inl rfl⟩ ⟨_, rfl⟩

/-- C6 counterexample: an error raised by the indexing call is not caught:
gatherRepoContext propagates it instead of degrading to the no-files
sentinel. -/
theorem C6_counterexample :
    gatherRepoContext wGatherFail "/r".data "task".data
        = Except.error "boom".data
    ∧ gatherRepoContext wGatherFail "/r".data "task".data
        ≠ Except.ok noFilesSentinel := by
  constructor
  · rfl
  · intro h
    rw [show gatherRepoContext wGatherFail "/r".data "task".data
        = Except.error "boom".data from rfl] at h
    exact Except.noConfusion h

/-- C6 (amended): gatherRepoContext returns the literal no-files sentinel
when the src subdirectory does not exist, but it has no try/catch: an error
raised by the indexing call or by the retrieval call propagates out of
gatherRepoContext unchanged (aborting the task) instead of degrading to the
sentinel. -/
theorem C6_sentinel_no_catch {Col : Type} (env : GatherEnv Col)
    (directory task : Str) :
    (env.existsDir (pathJoin directory "src".data) = false →
      gatherRepoContext env directory task = Except.ok noFilesSentinel)
    ∧ (∀ e, env.existsDir (pathJoin directory "src".data) = true →
        env.embedRepoFiles (pathJoin directory "src".data) task = Except.error e →
        gatherRepoContext env directory task = Except.error e)
    ∧ (∀ col e, env.existsDir (pathJoin directory "src".data) = true →
        env.embedRepoFiles (pathJoin directory "src".data) task = Except.ok col →
        env.searchRelevantFiles col task 20 = Except.error e →
        gatherRepoContext env directory task = Except.error e) := by
  refine ⟨?_, ?_, ?_⟩
  · intro h
    simp only [gatherRepoContext, h]
    rfl
  · intro e h he
    simp only [gatherRepoContext, h, he]
    rfl
  · intro col e h he hs
    simp only [gatherRepoContext, h, he, hs]
    rfl

/-- Witness for the amended C6: with the src directory missing the sentinel
comes back. -/
theorem C6_sentinel_no_catch_witness :
    gatherRepoContext wGatherNoDir "/r".data "t".data
      = Except.ok noFilesSentinel :=
  (C6_sentinel_no_catch wGatherNoDir "/r".data "t".data).1 rfl

/-- C7 counterexample: when the failed build captured both a non-empty stdout
and a non-empty stderr, errorOutput is the stdout text alone; the stderr text
is dropped, not combined into the output. -/
theorem C7_counterexample :
    (buildProject (ExecOutcome.fail (some "out".data) (some "err".data)
        "msg".data "Error: msg".data)).errorOutput = some "out".data
    ∧ ¬ ("err".data <:+: "out".data) := by
  exact ⟨rfl, by decide⟩

/-- C7 (amended): buildProject never throws - it is a total function of the
build outcome; it succeeds exactly when the process exits successfully, and
on failure errorOutput is always set, holding the first truthy value among
the captured stdout, the captured stderr, err.message and String(err) - not
their combination. -/
theorem C7_build_result (outcome : ExecOutcome) :
    ((buildProject outcome).success = true ↔ outcome = ExecOutcome.ok)
    ∧ (∀ stdout stderr message asString,
        outcome = ExecOutcome.fail stdout stderr message asString →
        ∃ e, buildProject outcome = ⟨false, some e⟩
          ∧ ((∃ s, stdout = some s ∧ s ≠ [] ∧ e = s)
            ∨ (jsTruthyO stdout = false ∧ ∃ s, stderr = some s ∧ s ≠ [] ∧ e = s)
            ∨ (jsTruthyO stdout = false ∧ jsTruthyO stderr = false
                ∧ message ≠ [] ∧ e = message)
            ∨ (jsTruthyO stdout = false ∧ jsTruthyO stderr = false
                ∧ message = [] ∧ e = asString))) := by
  constructor
  · cases outcome with
    | ok => exact ⟨fun _ => rfl, fun _ => rfl⟩
    | fail st se m a =>
      constructor
      · intro h
        exact absurd h (by simp [buildProject])
      · intro h
        cases h
  · intro st se m a hout
    subst hout
    refine ⟨jsOrStr st (jsOrStr se (jsOrStr (some m) a)), rfl, ?_⟩
    cases st with
    | some s =>
      rcases eq_or_ne s [] with rfl | hs
      · cases se with
        | some t =>
          rcases eq_or_ne t [] with rfl | ht
          · rcases eq_or_ne m [] with rfl | hm
            · exact Or.inr (Or.inr (Or.inr ⟨rfl, rfl, rfl, by simp [jsOrStr]⟩))
            · exact Or.inr (Or.inr (Or.inl ⟨rfl, rfl, hm, by simp [jsOrStr, hm]⟩))
          · exact Or.inr (Or.inl ⟨rfl, t, rfl, ht, by simp [jsOrStr, ht]⟩)
        | none =>
          rcases eq_or_ne m [] with rfl | hm
          · exact Or.inr (Or.inr (Or.inr ⟨rfl, rfl, rfl, by simp [jsOrStr]⟩))
          · exact Or.inr (Or.inr (Or.inl ⟨rfl, rfl, hm, by simp [jsOrStr, hm]⟩))
      · exact Or.inl ⟨s, rfl, hs, by simp [jsOrStr, hs]⟩
    | none =>
      cases se with
      | some t =>
        rcases eq_or_ne t [] with rfl | ht
        · rcases eq_or_ne m [] with rfl | hm
          · exact Or.inr (Or.inr (Or.inr ⟨rfl, rfl, rfl, by simp [jsOrStr]⟩))
          · exact Or.inr (Or.inr (Or.inl ⟨rfl, rfl, hm, by simp [jsOrStr, hm]⟩))
        · exact Or.inr (Or.inl ⟨rfl, t, rfl, ht, by simp [jsOrStr, ht]⟩)
      | none =>
        rcases eq_or_ne m [] with rfl | hm
        · exact Or.inr (Or.inr (Or.inr ⟨rfl, rfl, rfl, by simp [jsOrStr]⟩))
        · exact Or.inr (Or.inr (Or.inl ⟨rfl, rfl, hm, by simp [jsOrStr, hm]⟩))

/-- Witness for the amended C7 at a successful outcome. -/
theorem C7_build_result_witness :
    (buildProject ExecOutcome.ok).success = true :=
  (C7_build_result ExecOutcome.ok).1.mpr rfl

/-- Any non-empty context digest appears verbatim in the built prompt. -/
lemma ctx_infix_buildPrompt (ctx summary desc : Str) (h : ctx ≠ []) :
    ctx <:+: buildPrompt ctx summary desc := by
  unfold buildPrompt
  rw [if_neg h]
  have hshape : promptPre ++ ctx ++ promptMid ++ summary
        ++ '\n' :: (desc ++ promptSuf)
      = promptPre ++ ctx
        ++ (promptMid ++ summary ++ '\n' :: (desc ++ promptSuf)) := by
    simp
  rw [hshape]
  apply infix_trimL
  · exact ⟨'Y', by decide, by decide⟩
  · exact ⟨'I', List.mem_append_left _ (List.mem_append_left _ (by decide)),
      by decide⟩

/-- C9 counterexample: a 9000-character context digest is embedded whole into
the prompt and the prompt exceeds MAX_PROMPT_LENGTH - nothing truncates the
digest when the ceiling is exceeded. -/
theorem C9_counterexample :
    (List.replicate 9000 'a' <:+:
      buildPrompt (List.replicate 9000 'a') "s".data "d".data)
    ∧ MAX_PROMPT_LENGTH
        < (buildPrompt (List.replicate 9000 'a') "s".data "d".data).length := by
  have hne : (List.replicate 9000 'a' : Str) ≠ [] :=
    List.length_pos.mp (by rw [List.length_replicate]; omega)
  have hinf := ctx_infix_buildPrompt (List.replicate 9000 'a') "s".data "d".data hne
  refine ⟨hinf, ?_⟩
  have hlen := hinf.length_le
  simp only [List.length_replicate] at hlen
  simp only [MAX_PROMPT_LENGTH]
  omega

/-- C9 (amended): the prompt builder enforces no length ceiling: every
non-empty context digest is embedded verbatim in the prompt however long it
is (MAX_PROMPT_LENGTH is declared in the source but nothing uses it). -/
theorem C9_no_truncation (ctx summary desc : Str) (h : ctx ≠ []) :
    ctx <:+: buildPrompt ctx summary desc :=
  ctx_infix_buildPrompt ctx summary desc h

/-- Witness for the amended C9. -/
theorem C9_no_truncation_witness :
    "c".data <:+: buildPrompt "c".data "s".data "d".data :=
  C9_no_truncation "c".data "s".data "d".data (by decide)

end AiDev
